import Mathlib

/-!
Verification of the drum-grid sequencer core (step grid, loop overlay,
keep-timing remap, transcription engine, look-ahead scheduler).

The definitions below are shallow embeddings of the JavaScript source:
`src/src/App.jsx` (grid, loop overlay, remap, transcription) and
`src/src/audio/usePlayback.js` (audio engine / scheduler).  JavaScript
arrays are modelled as `List`, numbers as `Nat` (or `ℚ` where the source
uses fractional clock times), objects keyed by instrument id as functions
out of the fixed 10-element instrument enumeration.  `Math.round` on a
non-negative ratio `a / b` (round half up, as in JavaScript) is modelled
exactly by `(2 a + b) / (2 b)` over `Nat`.
-/

/-- Cell states of the step grid: `CELL = { OFF, ON, GHOST }` in `App.jsx`. -/
inductive Cell
  | off
  | on
  | ghost
deriving DecidableEq, Repr

/-- Instrument identities from the `INSTRUMENTS` catalogue in `App.jsx`
(order matters: it is the row order of the grid). -/
inductive InstId
  | crash2
  | crash1
  | ride
  | hihatFoot
  | tom1
  | tom2
  | floorTom
  | hihat
  | snare
  | kick
deriving DecidableEq, Repr, Fintype

/-- The ordered instrument catalogue (`INSTRUMENTS` in `App.jsx`). -/
def INSTRUMENTS : List InstId :=
  [.crash2, .crash1, .ride, .hihatFoot, .tom1, .tom2, .floorTom, .hihat, .snare, .kick]

/-- Instruments with ghost-note support (`GHOST_ENABLED` in `App.jsx`). -/
def GHOST_ENABLED : List InstId := [.snare, .tom1, .tom2, .floorTom, .hihat]

/-- A pattern grid: one row of cells per instrument id
(the JS object `{ [instId]: CellState[] }`). -/
abbrev Grid := InstId → List Cell

/-- Read one cell; out-of-range reads yield `off`, matching the
`grid[id]?.[idx] ?? CELL.OFF` accesses of the source. -/
def cellAt (g : Grid) (i : InstId) (idx : Nat) : Cell := (g i).getD idx Cell.off

/-- Replace one instrument row (the JS assignment `next[instId] = row`). -/
def updRow (g : Grid) (i : InstId) (row : List Cell) : Grid :=
  fun j => if j = i then row else g j

/-- Loop rule `{ rowStart, rowEnd, start, length }` from `App.jsx`. -/
structure LoopRule where
  rowStart : Nat
  rowEnd : Nat
  start : Nat
  length : Nat
deriving DecidableEq, Repr

/-- One write of the bake tiling loop: row index `rr` receives, at column
`idx`, the source-slice value at offset `(idx - start) % length`
(`next[instId][idx] = srcByRow[instId]?.[i] ?? CELL.OFF` in `bakeLoopInto`). -/
def bakeWrite (src : InstId → List Cell) (r : LoopRule) (idx : Nat)
    (acc : Grid) (rr : Nat) : Grid :=
  match INSTRUMENTS.get? rr with
  | some i => updRow acc i ((acc i).set idx ((src i).getD ((idx - r.start) % r.length) Cell.off))
  | none => acc

/-- The inner row loop of `bakeLoopInto`: `for (r = rowStart; r <= rowEnd; r++)`. -/
def bakeCol (src : InstId → List Cell) (r : LoopRule) (acc : Grid) (idx : Nat) : Grid :=
  (List.range' r.rowStart (r.rowEnd + 1 - r.rowStart)).foldl (bakeWrite src r idx) acc

/-- `bakeLoopInto(prevGrid, rule)` from `App.jsx` (lines 195-216): copy the
grid, slice the loop source `[start, start+length)` of each covered row from
that copy, then overwrite every column from `start+length` up to `columns`
with the slice repeated at stride `length` (a final repeat may be partial).
The JS copy of a row has the same cells as the original, so the copy step is
the identity in this value-semantics model. -/
def bakeLoopInto (g : Grid) (r : LoopRule) (columns : Nat) : Grid :=
  let src : InstId → List Cell := fun i => ((g i).drop r.start).take r.length
  (List.range' (r.start + r.length) (columns - (r.start + r.length))).foldl
    (bakeCol src r) g

/-- One write of the derived-grid tiling loop (`computedGrid` in `App.jsx`);
textually the same assignment as in `bakeLoopInto`. -/
def cgWrite (src : InstId → List Cell) (r : LoopRule) (idx : Nat)
    (acc : Grid) (rr : Nat) : Grid :=
  match INSTRUMENTS.get? rr with
  | some i => updRow acc i ((acc i).set idx ((src i).getD ((idx - r.start) % r.length) Cell.off))
  | none => acc

/-- The inner row loop of `computedGrid`. -/
def cgCol (src : InstId → List Cell) (r : LoopRule) (acc : Grid) (idx : Nat) : Grid :=
  (List.range' r.rowStart (r.rowEnd + 1 - r.rowStart)).foldl (cgWrite src r idx) acc

/-- `computedGrid` from `App.jsx` (lines 218-241): a copy of the base grid
when the rule is null or has `length < 2`, otherwise the same tiling as the
bake operation, computed from the base grid without mutating it. -/
def computedGrid (g : Grid) (rule : Option LoopRule) (columns : Nat) : Grid :=
  match rule with
  | none => g
  | some r =>
    if r.length < 2 then g
    else
      let src : InstId → List Cell := fun i => ((g i).drop r.start).take r.length
      (List.range' (r.start + r.length) (columns - (r.start + r.length))).foldl
        (cgCol src r) g

/-- JavaScript `Math.round (a / b)` for non-negative integers: round half up. -/
def jround (a b : Nat) : Nat := (2 * a + b) / (2 * b)

/-- Velocity precedence rank used by the remap collision rule in `App.jsx`
(`rank = v === ON ? 2 : v === GHOST ? 1 : 0`). -/
def rank : Cell → Nat
  | .on => 2
  | .ghost => 1
  | .off => 0

/-- The collision combine of `remapGrid`:
`out[newGlobal] = rank(val) >= rank(cur) ? val : cur`. -/
def pick (cur v : Cell) : Cell := if rank cur ≤ rank v then v else cur

/-- One step of the remap inner loop (`for s` in `remapGrid`, `App.jsx`
lines 143-157): skip `off` source cells, otherwise round the local step to
the new resolution, clamp into `[0, newSPB-1]`, and write with the
precedence combine. -/
def remapStep (gRow : List Cell) (oldSPB newSPB b : Nat)
    (out : List Cell) (s : Nat) : List Cell :=
  let val := gRow.getD (b * oldSPB + s) Cell.off
  if val = Cell.off then out
  else
    let newLocal := jround (s * newSPB) oldSPB
    let clamped := min (newSPB - 1) (max 0 newLocal)
    let newGlobal := b * newSPB + clamped
    let cur := out.getD newGlobal Cell.off
    out.set newGlobal (pick cur val)

/-- The remap outer loop body (`for b` in `remapGrid`). -/
def remapBar (gRow : List Cell) (oldSPB newSPB : Nat)
    (out : List Cell) (b : Nat) : List Cell :=
  (List.range oldSPB).foldl (remapStep gRow oldSPB newSPB b) out

/-- `remapGrid(prevGrid, oldStepsPerBar, newStepsPerBar)` from `App.jsx`
(lines 139-162), with the surrounding `bars` closure value passed
explicitly: each instrument row starts as `bars * newSPB` cells of `off`
and receives every non-`off` old cell at its rounded/clamped destination. -/
def remapGrid (g : Grid) (oldSPB newSPB bars : Nat) : Grid :=
  fun i =>
    (List.range bars).foldl (remapBar (g i) oldSPB newSPB)
      (List.replicate (bars * newSPB) Cell.off)

example : jround 32 5 = 6 := by decide
example : jround 4 8 = 1 := by decide
example :
    (bakeLoopInto
      (fun i => if i = InstId.snare then
        [Cell.on, Cell.off, Cell.on, Cell.off, Cell.off, Cell.off, Cell.off, Cell.off]
        else List.replicate 8 Cell.off)
      ⟨8, 8, 0, 3⟩ 8) InstId.snare =
    [Cell.on, Cell.off, Cell.on, Cell.on, Cell.off, Cell.on, Cell.on, Cell.off] := by decide

/-! Transcription engine (the per-bar while loop of the `Notation` component,
`App.jsx` lines 1292-1601). -/

/-- Transcription parameters: grid resolution, time signature and the three
merge toggles. -/
structure TP where
  res : Nat
  n : Nat
  d : Nat
  mergeNotes : Bool
  mergeRests : Bool
  dottedNotes : Bool
deriving DecidableEq, Repr

/-- `stepsPerBar = Math.max(1, Math.round((timeSig.n * resolution) / timeSig.d))`. -/
def stepsPerBarOf (P : TP) : Nat := max 1 (jround (P.n * P.res) P.d)

/-- The per-loop `stepsPerBeatN = Math.max(1, Math.round(notationResolution / timeSig.d))`. -/
def spbNOf (P : TP) : Nat := max 1 (jround P.res P.d)

/-- `beamGroupsPerBar`: compound meters (denominator 8, numerator a multiple
of 3 greater than 3) group in dotted quarters, otherwise one group per
numerator beat. -/
def beamGroupsOf (P : TP) : Nat :=
  if P.d = 8 ∧ P.n % 3 = 0 ∧ 3 < P.n then P.n / 3 else P.n

/-- `groupSizeSteps = stepsPerBar / beamGroupsPerBar` (exact rational where
the source uses JS float division; all in-app evaluations are exact). -/
def groupSize (P : TP) : ℚ := (stepsPerBarOf P : ℚ) / (beamGroupsOf P : ℚ)

/-- `inSameBeamGroup(startStep, endExclusiveStep)` from `App.jsx`
lines 1332-1335: the floors of first and last covered step over the
beam-group size agree. -/
def sameWin (P : TP) (a e : Nat) : Bool :=
  decide (⌊(a : ℚ) / groupSize P⌋ = ⌊((e - 1 : Nat) : ℚ) / groupSize P⌋)

/-- `hasAnyHitAt(absIdx)`: some instrument sounds at the absolute index. -/
def hasAnyHitAt (g : Grid) (idx : Nat) : Bool :=
  INSTRUMENTS.any (fun i => decide (cellAt g i idx ≠ Cell.off))

/-- `isStepEmpty(absIdx)`. -/
def isStepEmpty (g : Grid) (idx : Nat) : Bool := !hasAnyHitAt g idx

/-- Renderer duration codes (`"q" / "8" / "16" / "32"`). -/
inductive DC
  | q
  | e8
  | s16
  | t32
deriving DecidableEq, Repr

/-- The base (unmerged) duration code for a resolution:
`dur = res === 4 ? "q" : res === 8 ? "8" : res === 16 ? "16" : "32"`. -/
def baseDC (res : Nat) : DC :=
  if res = 4 then .q else if res = 8 then .e8 else if res = 16 then .s16 else .t32

/-- One emitted symbol: bar-local start step, steps consumed by the
emission (`adv`, including a dotted extension), rest flag, dotted flag and
duration code. -/
structure NSym where
  start : Nat
  adv : Nat
  rest : Bool
  dotted : Bool
  dc : DC
deriving DecidableEq, Repr

/-- Duration code of the 32nd-grid merge by run length in 32nd steps. -/
def dcOfLen (len : Nat) : DC :=
  if len = 8 then .q else if len = 4 then .e8 else if len = 2 then .s16 else .t32

/-- `canLen(len)` of the 32nd-grid merge (`App.jsx` lines 1411-1419): the
run starts aligned, fits in the bar, stays in one beam group, and covers
only silent steps after the first. -/
def canLen32 (P : TP) (g : Grid) (b s len : Nat) : Bool :=
  decide (s % len = 0) && decide (s + (len - 1) < stepsPerBarOf P) &&
    sameWin P s (s + len) &&
    (List.range' 1 (len - 1)).all (fun k => isStepEmpty g (b * stepsPerBarOf P + (s + k)))

/-- The longest accepted power-of-two run length (`let len = 1; if
(canLen(2)) len = 2; if (canLen(4)) len = 4; if (canLen(8)) len = 8;`). -/
def len32 (P : TP) (g : Grid) (b s : Nat) : Nat :=
  if canLen32 P g b s 8 then 8
  else if canLen32 P g b s 4 then 4
  else if canLen32 P g b s 2 then 2
  else 1

/-- The optional dotted extension of the 32nd-grid merge (`App.jsx` lines
1428-1438): adds half the base length when it fits the bar, stays in the
same beam group and is silent. -/
def dotted32 (P : TP) (g : Grid) (b s : Nat) : Bool :=
  let len := len32 P g b s
  let extra := len / 2
  P.dottedNotes && decide (2 ≤ len) &&
    decide (s + (len + extra - 1) < stepsPerBarOf P) &&
    sameWin P s (s + len + extra) &&
    (List.range' len extra).all (fun k => isStepEmpty g (b * stepsPerBarOf P + (s + k)))

/-- The symbol emitted by the 32nd-grid merge branch. -/
def sym32 (P : TP) (g : Grid) (b s : Nat) : NSym :=
  ⟨s,
   if dotted32 P g b s then len32 P g b s + len32 P g b s / 2 else len32 P g b s,
   false, dotted32 P g b s, dcOfLen (len32 P g b s)⟩

/-- The note-merge section of the loop body (`if (mergeNotes && !isRest)`,
`App.jsx` lines 1339-1480): returns the emitted symbol when one of its
branches fires (each source branch ends in `continue`). `emp j` abbreviates
`isStepEmpty(b*stepsPerBar + j)`. -/
def noteSym (P : TP) (g : Grid) (b s : Nat) : Option NSym :=
  let SPB := stepsPerBarOf P
  let spbN := spbNOf P
  let sub := s % spbN
  let allowDotted := P.dottedNotes
  let emp : Nat → Bool := fun j => isStepEmpty g (b * SPB + j)
  if P.res = 8 ∧ spbN = 2 ∧ sub = 0 ∧ s + 1 < SPB ∧ emp (s + 1) then
    if allowDotted ∧ s + 2 < SPB ∧ emp (s + 2) ∧ sameWin P s (s + 3) then
      some ⟨s, 3, false, true, .q⟩
    else some ⟨s, 2, false, false, .q⟩
  else if P.res = 16 ∧ spbN = 4 ∧ sub = 0 ∧ s + 3 < SPB ∧ emp (s + 1) ∧ emp (s + 2) ∧ emp (s + 3) then
    some ⟨s, 4, false, false, .q⟩
  else if P.res = 16 ∧ spbN = 4 ∧ (sub = 0 ∨ sub = 2) ∧ s + 1 < SPB ∧ emp (s + 1) then
    if allowDotted ∧ s + 2 < SPB ∧ emp (s + 2) ∧ sameWin P s (s + 3) then
      some ⟨s, 3, false, true, .e8⟩
    else some ⟨s, 2, false, false, .e8⟩
  else if P.res = 32 ∧ (spbN = 8 ∨ spbN = 4) then
    some (sym32 P g b s)
  else if P.res = 16 ∧ spbN = 2 ∧ sub = 0 ∧ s + 1 < SPB ∧ emp (s + 1) then
    if allowDotted ∧ s + 2 < SPB ∧ emp (s + 2) ∧ sameWin P s (s + 3) then
      some ⟨s, 3, false, true, .e8⟩
    else some ⟨s, 2, false, false, .e8⟩
  else none

/-- The rest-merge section of the loop body (`if (mergeRests && isRest)`,
`App.jsx` lines 1483-1584). -/
def restSym (P : TP) (g : Grid) (b s : Nat) : Option NSym :=
  let SPB := stepsPerBarOf P
  let spbN := spbNOf P
  let sub := s % spbN
  let emp : Nat → Bool := fun j => isStepEmpty g (b * SPB + j)
  if P.res = 8 ∧ spbN = 2 ∧ sub = 0 ∧ s + 1 < SPB ∧ emp (s + 1) then
    some ⟨s, 2, true, false, .q⟩
  else if P.res = 16 ∧ spbN = 4 ∧ sub = 0 ∧ s + 3 < SPB ∧ emp (s + 1) ∧ emp (s + 2) ∧ emp (s + 3) then
    some ⟨s, 4, true, false, .q⟩
  else if P.res = 16 ∧ spbN = 4 ∧ (sub = 0 ∨ sub = 2) ∧ s + 1 < SPB ∧ emp (s + 1) then
    some ⟨s, 2, true, false, .e8⟩
  else if P.res = 32 ∧ spbN = 8 ∧ sub = 0 ∧ s + 7 < SPB ∧
      (List.range' 1 7).all (fun k => emp (s + k)) then
    some ⟨s, 8, true, false, .q⟩
  else if P.res = 32 ∧ spbN = 8 ∧ (sub = 0 ∨ sub = 4) ∧ s + 3 < SPB ∧
      emp (s + 1) ∧ emp (s + 2) ∧ emp (s + 3) then
    some ⟨s, 4, true, false, .e8⟩
  else if P.res = 32 ∧ spbN = 8 ∧ (sub = 0 ∨ sub = 2 ∨ sub = 4 ∨ sub = 6) ∧ s + 1 < SPB ∧
      emp (s + 1) then
    some ⟨s, 2, true, false, .s16⟩
  else if P.res = 32 ∧ spbN = 4 ∧ sub = 0 ∧ s + 3 < SPB ∧
      emp (s + 1) ∧ emp (s + 2) ∧ emp (s + 3) then
    some ⟨s, 4, true, false, .e8⟩
  else if P.res = 32 ∧ spbN = 4 ∧ (sub = 0 ∨ sub = 2) ∧ s + 1 < SPB ∧ emp (s + 1) then
    some ⟨s, 2, true, false, .s16⟩
  else if P.res = 16 ∧ spbN = 2 ∧ sub = 0 ∧ s + 1 < SPB ∧ emp (s + 1) then
    some ⟨s, 2, true, false, .e8⟩
  else none

/-- The merged symbol of one loop iteration, when a merge branch fires:
note merges run only on sounding steps, rest merges only on silent ones. -/
def mergedSym (P : TP) (g : Grid) (b s : Nat) : Option NSym :=
  let isRest := !hasAnyHitAt g (b * stepsPerBarOf P + s)
  if P.mergeNotes ∧ isRest = false then noteSym P g b s
  else if P.mergeRests ∧ isRest = true then restSym P g b s
  else none

/-- One iteration of the per-bar while loop: try the note merges, then the
rest merges, else fall through to the single-step emission at the base
resolution (`App.jsx` lines 1586-1600). -/
def emit (P : TP) (g : Grid) (b s : Nat) : NSym :=
  (mergedSym P g b s).getD
    ⟨s, 1, !hasAnyHitAt g (b * stepsPerBarOf P + s), false, baseDC P.res⟩

/-- The per-bar scan, fuel-indexed (`while (s < stepsPerBar)`): each
iteration emits one symbol and advances by the steps it consumed. -/
def scanGo (P : TP) (g : Grid) (b : Nat) : Nat → Nat → List NSym
  | 0, _ => []
  | fuel + 1, s =>
    if s < stepsPerBarOf P then
      let y := emit P g b s
      y :: scanGo P g b fuel (s + y.adv)
    else []

/-- The symbol sequence of bar `b` (fuel `stepsPerBar` suffices, since each
iteration consumes at least one step — proved below). -/
def scanBar (P : TP) (g : Grid) (b : Nat) : List NSym :=
  scanGo P g b (stepsPerBarOf P) 0

/-! Audio engine and look-ahead scheduler (`src/src/audio/usePlayback.js`,
`makeAudioEngine`).  Audio-clock times are modelled exactly over `ℚ`. -/

/-- `secondsPerStep() = (60 / bpm) * (4 / resolution)`. -/
def secondsPerStep (bpm res : ℚ) : ℚ := (60 / bpm) * (4 / res)

/-- `scheduleAheadTimeSec = 0.12`. -/
def scheduleAheadTimeSec : ℚ := 12 / 100

/-- Sample slots of the engine: one per instrument plus the dedicated
`snare_ghost` sample. -/
inductive Sample
  | inst (i : InstId)
  | snareGhost
deriving DecidableEq, Repr

/-- `trigger(instId, time, gain)`: silently skipped when no buffer is
loaded for the sample, otherwise one voice at the clamped gain. -/
def trigger (buffers : Sample → Bool) (smp : Sample) (gain : ℚ) : List (Sample × ℚ) :=
  if buffers smp then [(smp, max 0 (min 1 gain))] else []

/-- The per-instrument trigger logic of `scheduleStep` (`usePlayback.js`
lines 149-171): `off` is skipped, `ghost` uses instrument-specific reduced
gains (snare prefers the dedicated ghost sample when loaded), `on` plays at
gain 0.9. -/
def stepTrigs (buffers : Sample → Bool) (g : Grid) (step : Nat) : List (Sample × ℚ) :=
  INSTRUMENTS.flatMap (fun inst =>
    match cellAt g inst step with
    | Cell.off => []
    | Cell.ghost =>
      if inst = InstId.snare ∧ buffers Sample.snareGhost then
        trigger buffers Sample.snareGhost (6 / 10)
      else if inst = InstId.hihat then trigger buffers (Sample.inst inst) (3 / 10)
      else if inst = InstId.tom1 ∨ inst = InstId.tom2 ∨ inst = InstId.floorTom then
        trigger buffers (Sample.inst inst) (15 / 100)
      else trigger buffers (Sample.inst inst) (1 / 10)
    | Cell.on => trigger buffers (Sample.inst inst) (9 / 10))

/-- One scheduled step: the absolute audio-clock time, the step index
reported to the step-advance callback (`onStep`), and the trigger events. -/
structure Ev where
  time : ℚ
  step : Nat
  trigs : List (Sample × ℚ)
deriving DecidableEq, Repr

/-- Scheduler snapshot, as pulled from the snapshot provider each tick. -/
structure Snapshot where
  grid : Grid
  cols : Nat

/-- Engine transport state (`makeAudioEngine` module state): playing flag,
step cursor, next unscheduled absolute time, recurring-timer flag, and the
accumulated scheduled events. -/
structure Engine where
  isPlaying : Bool
  currentStep : Nat
  nextNoteTime : ℚ
  timerOn : Bool
  events : List Ev
deriving DecidableEq, Repr

/-- One invocation of `scheduler(getGridSnapshot)` (`usePlayback.js` lines
175-187), fuel-indexed: while `nextNoteTime < now + scheduleAheadTimeSec`,
schedule the current step at `nextNoteTime`, then advance the time by
`secondsPerStep()` and the cursor modulo `columns`.  Fuel only caps how
much of the while loop runs in this invocation; quantifying over it covers
every possible partition of the scheduling work. -/
def engineTick (bpm res : ℚ) (buffers : Sample → Bool) (snap : Snapshot) (now : ℚ) :
    Nat → Engine → Engine
  | 0, e => e
  | fuel + 1, e =>
    if e.nextNoteTime < now + scheduleAheadTimeSec then
      engineTick bpm res buffers snap now fuel
        { e with
          events := e.events ++ [⟨e.nextNoteTime, e.currentStep,
            stepTrigs buffers snap.grid e.currentStep⟩],
          nextNoteTime := e.nextNoteTime + secondsPerStep bpm res,
          currentStep := if snap.cols ≤ e.currentStep + 1 then 0 else e.currentStep + 1 }
    else e

/-- A run of the recurring timer: each tick pulls a snapshot and fires the
scheduler at some wall-clock moment `now` with some amount of work. -/
def engineRun (bpm res : ℚ) (buffers : Sample → Bool)
    (ticks : List (Snapshot × ℚ × Nat)) (e : Engine) : Engine :=
  ticks.foldl (fun e t => engineTick bpm res buffers t.1 t.2.1 t.2.2 e) e

/-- `play(getGridSnapshot, { startStep })` (`usePlayback.js` lines 189-200):
no-op while already playing; otherwise clamp the start step into
`[0, max 0 (columns - 1)]`, set `nextNoteTime = now + 0.03`, mark playing
and start the recurring timer. -/
def enginePlay (snap : Snapshot) (startStep : Nat) (now : ℚ) (e : Engine) : Engine :=
  if e.isPlaying then e
  else
    { e with
      currentStep := max 0 (min (max 0 (snap.cols - 1)) startStep),
      nextNoteTime := now + 3 / 100,
      isPlaying := true,
      timerOn := true }

/-- The engine as constructed by `makeAudioEngine()`. -/
def engineInit : Engine := ⟨false, 0, 0, false, []⟩

/-! Grid editing operations (`App.jsx`: `cycleVelocity`, `toggleGhost`, and
the structural operations), modelled as grid transformers.  The loop rule a
tap sees is carried as an explicit argument, so a sequence of operations
with arbitrary rule arguments covers every reachable interleaving of edits
and loop state. -/

/-- The plain toggle of `cycleVelocity` (`App.jsx` lines 349-358): ghost
counts as `on` for toggling, so a non-`off` cell turns `off` and an `off`
cell turns `on`. -/
def cycleWrite (g : Grid) (i : InstId) (idx : Nat) : Grid :=
  let current := (g i).getD idx Cell.off
  let normalized := if current = Cell.ghost then Cell.on else current
  let nextVal := if normalized = Cell.off then Cell.on else Cell.off
  updRow g i ((g i).set idx nextVal)

/-- The bake-and-exit test shared by `cycleVelocity` and `toggleGhost`
(`App.jsx` lines 330-345 and 364-377): a tap on a cell that is not inside
the loop source (or is in the generated area) bakes the loop. -/
def tapBakes (lr : LoopRule) (i : InstId) (idx : Nat) : Bool :=
  let r := INSTRUMENTS.findIdx (fun j => j == i)
  let inLoopRows := decide (lr.rowStart ≤ r ∧ r ≤ lr.rowEnd)
  let inSource := inLoopRows && decide (lr.start ≤ idx ∧ idx < lr.start + lr.length)
  let inGenerated := inLoopRows && decide (lr.start + lr.length ≤ idx)
  !inSource || inGenerated

/-- `cycleVelocity(inst, idx)` (`App.jsx` lines 328-359): with an active
loop rule, a tap outside the loop source bakes the loop and does not
toggle; otherwise the plain toggle applies. -/
def cycleVelocityOp (g : Grid) (rule : Option LoopRule) (i : InstId)
    (idx columns : Nat) : Grid :=
  match rule with
  | some lr =>
    if tapBakes lr i idx then bakeLoopInto g lr columns
    else cycleWrite g i idx
  | none => cycleWrite g i idx

/-- The ghost toggle body of `toggleGhost` (`App.jsx` lines 380-392): a
no-op on `off` cells, otherwise flips between `ghost` and `on`. -/
def ghostWrite (g : Grid) (i : InstId) (idx : Nat) : Grid :=
  let current := (g i).getD idx Cell.off
  if current = Cell.off then g
  else updRow g i ((g i).set idx (if current = Cell.ghost then Cell.on else Cell.ghost))

/-- `toggleGhost(inst, idx)` (`App.jsx` lines 361-393): an unconditional
no-op for instruments outside `GHOST_ENABLED`; with an active loop rule, a
tap outside the loop source bakes the loop; otherwise the ghost toggle. -/
def toggleGhostOp (g : Grid) (rule : Option LoopRule) (i : InstId)
    (idx columns : Nat) : Grid :=
  if i ∈ GHOST_ENABLED then
    match rule with
    | some lr =>
      if tapBakes lr i idx then bakeLoopInto g lr columns
      else ghostWrite g i idx
    | none => ghostWrite g i idx
  else g

/-- The grid operations reachable from the UI: toggle on/off, ghost tap,
keep-timing remap, and an explicit bake. -/
inductive Op
  | cycle (rule : Option LoopRule) (i : InstId) (idx columns : Nat)
  | ghostTap (rule : Option LoopRule) (i : InstId) (idx columns : Nat)
  | remap (oldSPB newSPB bars : Nat)
  | bakeOp (rule : LoopRule) (columns : Nat)

/-- Apply one operation to the base grid. -/
def applyOp (g : Grid) : Op → Grid
  | .cycle rule i idx c => cycleVelocityOp g rule i idx c
  | .ghostTap rule i idx c => toggleGhostOp g rule i idx c
  | .remap o nw b => remapGrid g o nw b
  | .bakeOp r c => bakeLoopInto g r c

/-- The initial grid: every instrument row is `columns` cells of `off`. -/
def initGrid (columns : Nat) : Grid := fun _ => List.replicate columns Cell.off

/-- The ghost invariant: instruments outside the ghost-enabled set never
hold a `ghost` cell. -/
def noGhost (g : Grid) : Prop :=
  ∀ i : InstId, i ∉ GHOST_ENABLED → Cell.ghost ∉ g i

/-! Scheduler timing lemmas. -/

/-- Timing invariant of the scheduler: the next unscheduled time sits
exactly `events.length` steps after `t0`, and every already-scheduled event
`k` sits at `t0 + k * sps`. -/
def TimeInv (t0 sps : ℚ) (e : Engine) : Prop :=
  e.nextNoteTime = t0 + e.events.length * sps ∧
  ∀ k (h : k < e.events.length), (e.events.get ⟨k, h⟩).time = t0 + k * sps

theorem engineTick_timeInv (t0 : ℚ) (bpm res : ℚ) (buffers : Sample → Bool)
    (snap : Snapshot) (now : ℚ) (fuel : Nat) (e : Engine)
    (h : TimeInv t0 (secondsPerStep bpm res) e) :
    TimeInv t0 (secondsPerStep bpm res) (engineTick bpm res buffers snap now fuel e) := by
  induction fuel generalizing e with
  | zero => exact h
  | succ fuel ih =>
    rw [engineTick]
    split
    · apply ih
      obtain ⟨ht, hk⟩ := h
      constructor
      · simp only [List.length_append, List.length_singleton, ht]
        push_cast
        ring
      · intro k hklt
        simp only [List.length_append, List.length_singleton] at hklt
        by_cases hlt : k < e.events.length
        · have := hk k hlt
          simp only [List.get_eq_getElem] at this ⊢
          rw [List.getElem_append_left hlt]
          exact this
        · have hke : k = e.events.length := by omega
          subst hke
          simp only [List.get_eq_getElem]
          rw [List.getElem_concat_length]
          · exact ht
          · rfl
    · exact h

theorem engineRun_timeInv (t0 : ℚ) (bpm res : ℚ) (buffers : Sample → Bool)
    (ticks : List (Snapshot × ℚ × Nat)) (e : Engine)
    (h : TimeInv t0 (secondsPerStep bpm res) e) :
    TimeInv t0 (secondsPerStep bpm res) (engineRun bpm res buffers ticks e) := by
  induction ticks generalizing e with
  | nil => exact h
  | cons t ts ih => exact ih _ (engineTick_timeInv t0 _ _ _ _ _ _ _ h)

/-- C6: the claim theorem below states that the `k`-th scheduled event of a
run sits exactly at `t0 + k * secondsPerStep bpm res`, for every
partitioning of the scheduling work over ticks, and that two runs with
different tick moments and workloads schedule identical times.  `t0` is
the time `play()` assigns to step 0 (`now + 0.03`). -/
theorem c6_scheduler_no_drift (bpm res : ℚ) (buffers : Sample → Bool)
    (t0 : ℚ) (s0 : Nat) (ticks1 ticks2 : List (Snapshot × ℚ × Nat)) (k : Nat)
    (h1 : k < (engineRun bpm res buffers ticks1 ⟨true, s0, t0, true, []⟩).events.length)
    (h2 : k < (engineRun bpm res buffers ticks2 ⟨true, s0, t0, true, []⟩).events.length) :
    ((engineRun bpm res buffers ticks1 ⟨true, s0, t0, true, []⟩).events.get ⟨k, h1⟩).time
      = t0 + k * secondsPerStep bpm res ∧
    ((engineRun bpm res buffers ticks1 ⟨true, s0, t0, true, []⟩).events.get ⟨k, h1⟩).time
      = ((engineRun bpm res buffers ticks2 ⟨true, s0, t0, true, []⟩).events.get ⟨k, h2⟩).time := by
  have hinit : TimeInv t0 (secondsPerStep bpm res) ⟨true, s0, t0, true, []⟩ := by
    constructor
    · simp
    · intro k h
      simp at h
  have i1 := engineRun_timeInv t0 bpm res buffers ticks1 _ hinit
  have i2 := engineRun_timeInv t0 bpm res buffers ticks2 _ hinit
  refine ⟨i1.2 k h1, ?_⟩
  rw [i1.2 k h1, i2.2 k h2]

/-- Snapshot used by the C6 witness run. -/
def snapW : Snapshot := ⟨fun _ => [], 4⟩

/-- Tick traces with different wall-clock moments and workloads. -/
def ticksW1 : List (Snapshot × ℚ × Nat) := [(snapW, 0, 1), (snapW, 1, 1), (snapW, 2, 1)]

def ticksW2 : List (Snapshot × ℚ × Nat) := [(snapW, 0, 3), (snapW, 2, 5)]

theorem c6_scheduler_no_drift_witness :
    ((engineRun 60 4 (fun _ => true) ticksW1 ⟨true, 0, 0, true, []⟩).events.getD 2
        ⟨0, 0, []⟩).time = 0 + 2 * secondsPerStep 60 4 ∧
    ((engineRun 60 4 (fun _ => true) ticksW1 ⟨true, 0, 0, true, []⟩).events.getD 2
        ⟨0, 0, []⟩).time
      = ((engineRun 60 4 (fun _ => true) ticksW2 ⟨true, 0, 0, true, []⟩).events.getD 2
        ⟨0, 0, []⟩).time := by
  have hr1 : engineRun 60 4 (fun _ => true) ticksW1 ⟨true, 0, 0, true, []⟩ =
      ⟨true, 3, 3, true, [⟨0, 0, []⟩, ⟨1, 1, []⟩, ⟨2, 2, []⟩]⟩ := by
    norm_num [engineRun, engineTick, ticksW1, snapW, secondsPerStep, scheduleAheadTimeSec,
      stepTrigs, INSTRUMENTS, cellAt, trigger]
  have hr2 : engineRun 60 4 (fun _ => true) ticksW2 ⟨true, 0, 0, true, []⟩ =
      ⟨true, 3, 3, true, [⟨0, 0, []⟩, ⟨1, 1, []⟩, ⟨2, 2, []⟩]⟩ := by
    norm_num [engineRun, engineTick, ticksW2, snapW, secondsPerStep, scheduleAheadTimeSec,
      stepTrigs, INSTRUMENTS, cellAt, trigger]
  have h1 : 2 < (engineRun 60 4 (fun _ => true) ticksW1 ⟨true, 0, 0, true, []⟩).events.length := by
    rw [hr1]; norm_num
  have h2 : 2 < (engineRun 60 4 (fun _ => true) ticksW2 ⟨true, 0, 0, true, []⟩).events.length := by
    rw [hr2]; norm_num
  have := c6_scheduler_no_drift 60 4 (fun _ => true) 0 0 ticksW1 ticksW2 2 h1 h2
  rw [List.getD_eq_getElem _ _ h1, List.getD_eq_getElem _ _ h2]
  simpa [List.get_eq_getElem] using this

/-- C9: evaluation at the failing input `columns = 0`.  `play()` is neither
rejected nor a no-op: it starts the recurring look-ahead timer
(`timerOn = true`), reports the playing state, and the very next scheduler
tick invokes the step-advance callback (one scheduled event with step
index 0) — while, with every row empty, no trigger event is emitted. -/
theorem c9_play_columns_zero_not_rejected :
    (enginePlay ⟨fun _ => [], 0⟩ 0 0 engineInit).timerOn = true ∧
    (enginePlay ⟨fun _ => [], 0⟩ 0 0 engineInit).isPlaying = true ∧
    (engineTick 120 16 (fun _ => true) ⟨fun _ => [], 0⟩ 0 2
        (enginePlay ⟨fun _ => [], 0⟩ 0 0 engineInit)).events = [⟨3/100, 0, []⟩] := by
  refine ⟨rfl, rfl, ?_⟩
  norm_num [enginePlay, engineInit, engineTick, secondsPerStep, scheduleAheadTimeSec,
    stepTrigs, INSTRUMENTS, cellAt, trigger]

/-! Bake versus derived grid. -/

theorem cgWrite_eq_bakeWrite : cgWrite = bakeWrite := rfl

theorem cgCol_eq_bakeCol : cgCol = bakeCol := rfl

/-- For an active rule (`length ≥ 2`), baking performs exactly the tiling of
the derived-grid computation: both slice the same source rows of the same
grid and run the same overwrite loop. -/
theorem bakeLoopInto_eq_computedGrid (g : Grid) (r : LoopRule) (c : Nat)
    (h : 2 ≤ r.length) : bakeLoopInto g r c = computedGrid g (some r) c := by
  simp only [bakeLoopInto, computedGrid]
  rw [if_neg (by omega), cgCol_eq_bakeCol]

/-- C2: cell for cell, `bakeLoopInto(baseGrid, rule)` returns exactly what
the derived-grid computation `computedGrid(baseGrid, rule, columns)`
returns, for every base grid, every active rule (`length ≥ 2`) and the same
column count: bake materializes the derived grid into a new base grid. -/
theorem c2_bake_materializes_derived (g : Grid) (r : LoopRule) (c : Nat)
    (h : 2 ≤ r.length) : bakeLoopInto g r c = computedGrid g (some r) c :=
  bakeLoopInto_eq_computedGrid g r c h

/-- Concrete base grid used by several witnesses: a snare row
`[on, off, on, off, off, off, off, off]`, all other rows silent. -/
def gB : Grid := fun i =>
  if i = InstId.snare then
    [Cell.on, Cell.off, Cell.on, Cell.off, Cell.off, Cell.off, Cell.off, Cell.off]
  else List.replicate 8 Cell.off

theorem c2_bake_materializes_derived_witness :
    bakeLoopInto gB ⟨8, 8, 0, 3⟩ 8 = computedGrid gB (some ⟨8, 8, 0, 3⟩) 8 :=
  c2_bake_materializes_derived gB ⟨8, 8, 0, 3⟩ 8 (by decide)

/-- `bakeLoopInto` applied to a possibly-null rule.  The JS function
destructures `rule` unconditionally (`const { rowStart, rowEnd, start,
length } = rule;`), which throws a `TypeError` when `rule` is `null`;
the thrown call is modelled as `none`. -/
def bakeLoopIntoN (g : Grid) (rule : Option LoopRule) (columns : Nat) : Option Grid :=
  rule.map (fun r => bakeLoopInto g r columns)

/-- C8 counterexample: baking a derived grid with a null rule does not
return the grid unchanged — the bake operation fails (JS `TypeError` from
destructuring `null`), already on the all-off 4-column grid. -/
theorem c8_counterexample_null_bake_fails :
    bakeLoopIntoN (computedGrid (initGrid 4) (some ⟨0, 0, 0, 2⟩) 4) none 4 = none := rfl

/-- C8 (amended): `bakeLoopInto` requires a non-null rule — applied to
`null` it throws instead of acting as a no-op; the no-op law holds for the
derived-grid computation instead: re-deriving any grid with a null rule
returns it unchanged, in particular for an already-derived grid. -/
theorem c8_amended_null_rederive_noop (g : Grid) (r : Option LoopRule) (c : Nat) :
    computedGrid (computedGrid g r c) none c = computedGrid g r c ∧
    computedGrid g none c = g ∧
    bakeLoopIntoN (computedGrid g r c) none c = none :=
  ⟨rfl, rfl, rfl⟩

/-! Pointwise characterization of the tiling loop. -/

/-- `getD` after `set`: the write is visible exactly at an in-range hit. -/
theorem getD_set {α : Type} (l : List α) (n m : Nat) (a d : α) :
    (l.set n a).getD m d = if n = m ∧ n < l.length then a else l.getD m d := by
  simp only [List.getD_eq_getElem?_getD, List.getElem?_set]
  by_cases h1 : n = m
  · subst h1
    by_cases h2 : n < l.length
    · simp [h2]
    · rw [if_pos rfl, if_neg h2, if_neg (fun h => h2 h.2)]
      rw [List.getElem?_eq_none (by omega)]
  · rw [if_neg h1, if_neg (fun h => h1 h.1)]

/-- Instrument ids covered by a rule: positions `rowStart..rowEnd` of the
catalogue. -/
def covIds (r : LoopRule) : List InstId :=
  (List.range' r.rowStart (r.rowEnd + 1 - r.rowStart)).filterMap INSTRUMENTS.get?

/-- The value the tiling writes into column `idx` of a covered row. -/
def tileVal (src : InstId → List Cell) (r : LoopRule) (i : InstId) (idx : Nat) : Cell :=
  (src i).getD ((idx - r.start) % r.length) Cell.off

theorem bakeWrite_fold_apply (src : InstId → List Cell) (r : LoopRule) (idx : Nat)
    (rl : List Nat) (acc : Grid) (i : InstId) :
    (rl.foldl (bakeWrite src r idx) acc) i =
      if i ∈ rl.filterMap INSTRUMENTS.get? then (acc i).set idx (tileVal src r i idx)
      else acc i := by
  induction rl generalizing acc with
  | nil => simp
  | cons rr rl ih =>
    cases hg : INSTRUMENTS.get? rr with
    | none =>
      rw [List.foldl_cons, List.filterMap_cons, hg]
      rw [show bakeWrite src r idx acc rr = acc from by
        simp only [bakeWrite]; rw [hg]]
      exact ih acc
    | some j =>
      rw [List.foldl_cons, List.filterMap_cons, hg]
      rw [show bakeWrite src r idx acc rr =
          updRow acc j ((acc j).set idx (tileVal src r j idx)) from by
        simp only [bakeWrite, tileVal]; rw [hg]]
      rw [ih]
      by_cases hij : i = j
      · subst hij
        by_cases hmem : i ∈ rl.filterMap INSTRUMENTS.get? <;>
          simp [hmem, updRow, List.set_set, List.mem_cons]
      · by_cases hmem : i ∈ rl.filterMap INSTRUMENTS.get? <;>
          simp [hmem, updRow, hij, List.mem_cons]

theorem bakeCol_apply (src : InstId → List Cell) (r : LoopRule) (acc : Grid)
    (idx : Nat) (i : InstId) :
    bakeCol src r acc idx i =
      if i ∈ covIds r then (acc i).set idx (tileVal src r i idx) else acc i :=
  bakeWrite_fold_apply src r idx _ acc i

theorem bakeCol_length (src : InstId → List Cell) (r : LoopRule) (acc : Grid)
    (idx : Nat) (i : InstId) :
    (bakeCol src r acc idx i).length = (acc i).length := by
  rw [bakeCol_apply]
  split <;> simp

theorem bakeCols_getD (src : InstId → List Cell) (r : LoopRule) (idxs : List Nat)
    (acc : Grid) (i : InstId) (q : Nat) :
    ((idxs.foldl (bakeCol src r) acc) i).getD q Cell.off =
      if q ∈ idxs ∧ i ∈ covIds r ∧ q < (acc i).length
      then tileVal src r i q
      else (acc i).getD q Cell.off := by
  induction idxs generalizing acc with
  | nil => simp
  | cons idx idxs ih =>
    rw [List.foldl_cons, ih, bakeCol_length, bakeCol_apply,
      apply_ite (fun l => List.getD l q Cell.off), getD_set]
    split_ifs <;> (simp_all [List.mem_cons]; try omega)

/-- Pointwise description of the bake tiling: a covered row holds, from
column `start+length` up to `columns`, the source-slice value at offset
`(q - start) % length`; every other cell equals the base grid. -/
theorem bakeLoopInto_cellAt (g : Grid) (r : LoopRule) (c : Nat) (i : InstId) (q : Nat) :
    cellAt (bakeLoopInto g r c) i q =
      if r.start + r.length ≤ q ∧ q < c ∧ i ∈ covIds r ∧ q < (g i).length
      then (((g i).drop r.start).take r.length).getD ((q - r.start) % r.length) Cell.off
      else cellAt g i q := by
  simp only [cellAt, bakeLoopInto]
  rw [bakeCols_getD]
  have hmem : q ∈ List.range' (r.start + r.length) (c - (r.start + r.length)) ↔
      r.start + r.length ≤ q ∧ q < c := by
    rw [List.mem_range'_1]
    omega
  have hval : tileVal (fun i => ((g i).drop r.start).take r.length) r i q =
      (((g i).drop r.start).take r.length).getD ((q - r.start) % r.length) Cell.off := rfl
  rw [hval]
  by_cases h1 : q ∈ List.range' (r.start + r.length) (c - (r.start + r.length)) <;>
    by_cases h2 : i ∈ covIds r <;>
    by_cases h3 : q < (g i).length <;>
    simp_all <;>
    (split_ifs <;> first | rfl | (exfalso; omega))

/-- The same pointwise description for the derived grid with an active rule. -/
theorem computedGrid_cellAt (g : Grid) (r : LoopRule) (c : Nat) (i : InstId) (q : Nat)
    (h : 2 ≤ r.length) :
    cellAt (computedGrid g (some r) c) i q =
      if r.start + r.length ≤ q ∧ q < c ∧ i ∈ covIds r ∧ q < (g i).length
      then (((g i).drop r.start).take r.length).getD ((q - r.start) % r.length) Cell.off
      else cellAt g i q := by
  rw [← bakeLoopInto_eq_computedGrid g r c h]
  exact bakeLoopInto_cellAt g r c i q

/-- Membership in the covered-row id list, in terms of catalogue positions. -/
theorem mem_covIds_of_row (r : LoopRule) (rr : Nat) (i : InstId)
    (h1 : r.rowStart ≤ rr) (h2 : rr ≤ r.rowEnd) (h3 : INSTRUMENTS.get? rr = some i) :
    i ∈ covIds r := by
  unfold covIds
  rw [List.mem_filterMap]
  refine ⟨rr, ?_, h3⟩
  rw [List.mem_range'_1]
  omega

/-- C1: for every well-formed base grid and every active loop rule
(`length ≥ 2`, rows inside the catalogue), each covered instrument row holds,
at every column `idx` in `[start+length, columns)`, the base grid's source
slice `[start, start+length)` at offset `(idx - start) % length` (so a final
partial repeat copies only the leading cells of the slice that fit); every
cell outside that tiled region equals the base grid.  In particular the
8-step snare row starting `[on, off, on]` under rule `{start := 0,
length := 3}` derives to `[on, off, on, on, off, on, on, off]`. -/
theorem c1_derived_grid_tiling (g : Grid) (r : LoopRule) (columns : Nat)
    (hlen : 2 ≤ r.length) (hrow : r.rowEnd < INSTRUMENTS.length)
    (hwf : ∀ i, (g i).length = columns) :
    (∀ rr i, r.rowStart ≤ rr → rr ≤ r.rowEnd → INSTRUMENTS.get? rr = some i →
      ∀ idx, r.start + r.length ≤ idx → idx < columns →
        cellAt (computedGrid g (some r) columns) i idx =
          (((g i).drop r.start).take r.length).getD ((idx - r.start) % r.length) Cell.off) ∧
    (∀ i idx, ¬(r.start + r.length ≤ idx ∧ idx < columns ∧ i ∈ covIds r) →
        cellAt (computedGrid g (some r) columns) i idx = cellAt g i idx) ∧
    (computedGrid gB (some ⟨8, 8, 0, 3⟩) 8) InstId.snare =
      [Cell.on, Cell.off, Cell.on, Cell.on, Cell.off, Cell.on, Cell.on, Cell.off] := by
  refine ⟨?_, ?_, by decide⟩
  · intro rr i h1 h2 h3 idx h4 h5
    rw [computedGrid_cellAt g r columns i idx hlen]
    rw [if_pos ⟨h4, h5, mem_covIds_of_row r rr i h1 h2 h3, by rw [hwf i]; exact h5⟩]
  · intro i idx hne
    rw [computedGrid_cellAt g r columns i idx hlen]
    rw [if_neg (fun h => hne ⟨h.1, h.2.1, h.2.2.1⟩)]

theorem c1_derived_grid_tiling_witness :
    cellAt (computedGrid gB (some ⟨8, 8, 0, 3⟩) 8) InstId.snare 3 =
      (((gB InstId.snare).drop 0).take 3).getD ((3 - 0) % 3) Cell.off :=
  (c1_derived_grid_tiling gB ⟨8, 8, 0, 3⟩ 8 (by decide) (by decide) (by decide)).1
    8 InstId.snare (by decide) (by decide) (by decide) 3 (by decide) (by decide)

/-! Characterization of the keep-timing remap. -/

theorem pick_off (c : Cell) : pick c Cell.off = c := by
  cases c <;> rfl

/-- The destination index of the old cell at bar `b`, local step `s`:
`b * newSPB + clamp(round(s * newSPB / oldSPB), 0, newSPB - 1)`. -/
def remapDest (oldSPB newSPB b s : Nat) : Nat :=
  b * newSPB + min (newSPB - 1) (max 0 (jround (s * newSPB) oldSPB))

/-- The source iteration order of `remapGrid`: bars major, old local steps
minor. -/
def remapPairs (bars oldSPB : Nat) : List (Nat × Nat) :=
  (List.range bars).flatMap (fun b => (List.range oldSPB).map (fun s => (b, s)))

/-- The source cells that land on destination `d`, in iteration order. -/
def remapVals (gRow : List Cell) (oldSPB newSPB : Nat) (ps : List (Nat × Nat))
    (d : Nat) : List Cell :=
  ps.filterMap (fun p =>
    if remapDest oldSPB newSPB p.1 p.2 = d then some (gRow.getD (p.1 * oldSPB + p.2) Cell.off)
    else none)

theorem foldl_flatMap {α β γ : Type} (l : List α) (f : α → List β) (step : γ → β → γ)
    (init : γ) :
    ((l.flatMap f).foldl step init) = l.foldl (fun acc a => (f a).foldl step acc) init := by
  induction l generalizing init with
  | nil => rfl
  | cons a l ih => simp [List.foldl_append, ih]

theorem remapStep_length (gRow : List Cell) (oldSPB newSPB b : Nat)
    (out : List Cell) (s : Nat) :
    (remapStep gRow oldSPB newSPB b out s).length = out.length := by
  simp only [remapStep]
  split <;> simp

theorem remap_fold_getD (gRow : List Cell) (oldSPB newSPB : Nat)
    (ps : List (Nat × Nat)) (out : List Cell) (d : Nat)
    (hd : ∀ p ∈ ps, remapDest oldSPB newSPB p.1 p.2 < out.length) :
    ((ps.foldl (fun out p => remapStep gRow oldSPB newSPB p.1 out p.2) out).getD d Cell.off) =
      (remapVals gRow oldSPB newSPB ps d).foldl pick (out.getD d Cell.off) := by
  induction ps generalizing out with
  | nil => rfl
  | cons p ps ih =>
    rw [List.foldl_cons]
    have hstep : remapStep gRow oldSPB newSPB p.1 out p.2 =
        (if gRow.getD (p.1 * oldSPB + p.2) Cell.off = Cell.off then out
         else out.set (remapDest oldSPB newSPB p.1 p.2)
           (pick (out.getD (remapDest oldSPB newSPB p.1 p.2) Cell.off)
             (gRow.getD (p.1 * oldSPB + p.2) Cell.off))) := rfl
    have hvals : remapVals gRow oldSPB newSPB (p :: ps) d =
        (if remapDest oldSPB newSPB p.1 p.2 = d
         then gRow.getD (p.1 * oldSPB + p.2) Cell.off :: remapVals gRow oldSPB newSPB ps d
         else remapVals gRow oldSPB newSPB ps d) := by
      simp only [remapVals, List.filterMap_cons]
      by_cases h : remapDest oldSPB newSPB p.1 p.2 = d
      · rw [if_pos h, if_pos h]
      · rw [if_neg h, if_neg h]
    rw [hstep, hvals]
    by_cases hdest : remapDest oldSPB newSPB p.1 p.2 = d
    · rw [if_pos hdest]
      by_cases hoff : gRow.getD (p.1 * oldSPB + p.2) Cell.off = Cell.off
      · rw [if_pos hoff, ih _ (fun q hq => hd q (List.mem_cons_of_mem _ hq)),
          List.foldl_cons, hoff, pick_off]
      · rw [if_neg hoff]
        have hlen : remapDest oldSPB newSPB p.1 p.2 < out.length :=
          hd p (List.mem_cons_self _ _)
        rw [ih _ (fun q hq => by
          rw [List.length_set]; exact hd q (List.mem_cons_of_mem _ hq))]
        rw [List.foldl_cons, getD_set, if_pos ⟨hdest, hlen⟩, hdest]
    · rw [if_neg hdest]
      by_cases hoff : gRow.getD (p.1 * oldSPB + p.2) Cell.off = Cell.off
      · rw [if_pos hoff, ih _ (fun q hq => hd q (List.mem_cons_of_mem _ hq))]
      · rw [if_neg hoff]
        rw [ih _ (fun q hq => by
          rw [List.length_set]; exact hd q (List.mem_cons_of_mem _ hq))]
        rw [getD_set, if_neg (fun h => hdest h.1)]

theorem foldl_pick_prec (l : List Cell) (c : Cell) :
    l.foldl pick c =
      if Cell.on ∈ l ∨ c = Cell.on then Cell.on
      else if Cell.ghost ∈ l ∨ c = Cell.ghost then Cell.ghost
      else Cell.off := by
  induction l generalizing c with
  | nil =>
    cases c <;> simp
  | cons v l ih =>
    rw [List.foldl_cons, ih]
    cases c <;> cases v <;> simp [pick, rank, List.mem_cons]

theorem foldl_length_cell {α : Type} (step : List Cell → α → List Cell) (l : List α)
    (out : List Cell) (h : ∀ out a, (step out a).length = out.length) :
    (l.foldl step out).length = out.length := by
  induction l generalizing out with
  | nil => rfl
  | cons a l ih => rw [List.foldl_cons, ih, h]

theorem remapGrid_eq_pairs (g : Grid) (i : InstId) (oldSPB newSPB bars : Nat) :
    (remapGrid g oldSPB newSPB bars) i =
      (remapPairs bars oldSPB).foldl
        (fun out p => remapStep (g i) oldSPB newSPB p.1 out p.2)
        (List.replicate (bars * newSPB) Cell.off) := by
  simp only [remapGrid, remapPairs]
  rw [foldl_flatMap]
  congr 1
  funext out b
  rw [List.foldl_map]
  rfl

theorem getD_replicate_off (n d : Nat) :
    (List.replicate n Cell.off).getD d Cell.off = Cell.off := by
  rw [List.getD_eq_getElem?_getD]
  by_cases h : d < n
  · rw [List.getElem?_eq_getElem (by simpa using h), List.getElem_replicate]
    rfl
  · rw [List.getElem?_eq_none (by simpa using Nat.le_of_not_lt h)]
    rfl

theorem remapDest_lt (oldSPB newSPB b s bars : Nat) (hnew : 1 ≤ newSPB) (hb : b < bars) :
    remapDest oldSPB newSPB b s < bars * newSPB := by
  unfold remapDest
  have h1 : min (newSPB - 1) (max 0 (jround (s * newSPB) oldSPB)) ≤ newSPB - 1 :=
    min_le_left _ _
  have h2 : b * newSPB + (newSPB - 1) < (b + 1) * newSPB := by
    rw [Nat.add_mul, Nat.one_mul]
    omega
  have h3 : (b + 1) * newSPB ≤ bars * newSPB := Nat.mul_le_mul_right _ hb
  omega

theorem remapPairs_fst_lt (bars oldSPB : Nat) (p : Nat × Nat)
    (hp : p ∈ remapPairs bars oldSPB) : p.1 < bars := by
  simp only [remapPairs, List.mem_flatMap, List.mem_map, List.mem_range] at hp
  obtain ⟨b, hb, s, _, rfl⟩ := hp
  exact hb

/-- C5: for every grid and `oldSPB, newSPB ≥ 1`, the keep-timing remap
produces rows of exactly `bars * newSPB` cells, and each destination cell
`d` holds `on` when some source cell mapping to `d` (destination
`b*newSPB + clamp(round(s*newSPB/oldSPB), 0, newSPB-1)`) is `on`, else
`ghost` when some such source cell is `ghost`, else `off` — the
`On > Ghost > Off` collision precedence, with `off` everywhere no source
lands.  The Lean model is a total function: every write is in range by
construction (`remapDest_lt`), so the operation never fails. -/
theorem c5_remap_keep_timing (g : Grid) (oldSPB newSPB bars : Nat)
    (hold : 1 ≤ oldSPB) (hnew : 1 ≤ newSPB) :
    (∀ i, ((remapGrid g oldSPB newSPB bars) i).length = bars * newSPB) ∧
    (∀ i d, d < bars * newSPB →
      cellAt (remapGrid g oldSPB newSPB bars) i d =
        if Cell.on ∈ remapVals (g i) oldSPB newSPB (remapPairs bars oldSPB) d then Cell.on
        else if Cell.ghost ∈ remapVals (g i) oldSPB newSPB (remapPairs bars oldSPB) d then
          Cell.ghost
        else Cell.off) := by
  constructor
  · intro i
    rw [remapGrid_eq_pairs]
    rw [foldl_length_cell _ _ _ (fun out p => remapStep_length _ _ _ _ _ _)]
    exact List.length_replicate _ _
  · intro i d hd
    rw [cellAt, remapGrid_eq_pairs]
    rw [remap_fold_getD _ _ _ _ _ _ (fun p hp => by
      rw [List.length_replicate]
      exact remapDest_lt _ _ _ _ _ hnew (remapPairs_fst_lt _ _ _ hp))]
    rw [getD_replicate_off, foldl_pick_prec]
    simp

/-- Concrete grid for the C5 witness: a kick row on a 16-step bar with an
`on`/`ghost` collision (steps 0 and 1 both land on new step 0 when halving). -/
def gR : Grid := fun i =>
  if i = InstId.kick then
    [Cell.on, Cell.ghost, Cell.off, Cell.off, Cell.on, Cell.off, Cell.off, Cell.off,
     Cell.off, Cell.off, Cell.off, Cell.off, Cell.on, Cell.off, Cell.off, Cell.off]
  else List.replicate 16 Cell.off

theorem c5_remap_keep_timing_witness :
    cellAt (remapGrid gR 16 8 1) InstId.kick 0 =
      if Cell.on ∈ remapVals (gR InstId.kick) 16 8 (remapPairs 1 16) 0 then Cell.on
      else if Cell.ghost ∈ remapVals (gR InstId.kick) 16 8 (remapPairs 1 16) 0 then Cell.ghost
      else Cell.off :=
  (c5_remap_keep_timing gR 16 8 1 (by decide) (by decide)).2 InstId.kick 0 (by decide)

/-! Ghost invariant. -/

theorem getD_mem_or_default {α : Type} (l : List α) (n : Nat) (d : α) :
    l.getD n d ∈ l ∨ l.getD n d = d := by
  by_cases h : n < l.length
  · rw [List.getD_eq_getElem _ _ h]
    exact Or.inl (List.getElem_mem h)
  · right
    rw [List.getD_eq_getElem?_getD, List.getElem?_eq_none (by omega)]
    rfl

theorem bakeCols_row_length (src : InstId → List Cell) (r : LoopRule) (idxs : List Nat)
    (acc : Grid) (i : InstId) :
    ((idxs.foldl (bakeCol src r) acc) i).length = (acc i).length := by
  induction idxs generalizing acc with
  | nil => rfl
  | cons idx idxs ih => rw [List.foldl_cons, ih, bakeCol_length]

theorem bakeLoopInto_row_length (g : Grid) (r : LoopRule) (c : Nat) (i : InstId) :
    ((bakeLoopInto g r c) i).length = (g i).length := by
  simp only [bakeLoopInto]
  exact bakeCols_row_length _ _ _ _ _

/-- Baking copies only cells of the same row (or `off`), so it introduces no
new ghost cells into a ghost-free row. -/
theorem bake_no_new_ghost (g : Grid) (r : LoopRule) (c : Nat) (i : InstId)
    (hg : Cell.ghost ∉ g i) : Cell.ghost ∉ (bakeLoopInto g r c) i := by
  intro hmem
  obtain ⟨k, hk, hval⟩ := List.mem_iff_getElem.mp hmem
  have hk' : k < (g i).length := by rwa [bakeLoopInto_row_length] at hk
  have hcell : cellAt (bakeLoopInto g r c) i k = Cell.ghost := by
    rw [cellAt, List.getD_eq_getElem _ _ hk]
    exact hval
  rw [bakeLoopInto_cellAt] at hcell
  rcases Classical.em (r.start + r.length ≤ k ∧ k < c ∧ i ∈ covIds r ∧ k < (g i).length)
    with hcond | hcond
  · rw [if_pos hcond] at hcell
    rcases getD_mem_or_default (((g i).drop r.start).take r.length)
      ((k - r.start) % r.length) Cell.off with hin | hdef
    · rw [hcell] at hin
      exact hg (List.mem_of_mem_drop (List.mem_of_mem_take hin))
    · rw [hcell] at hdef
      exact Cell.noConfusion hdef
  · rw [if_neg hcond] at hcell
    rw [cellAt, List.getD_eq_getElem _ _ hk'] at hcell
    exact hg (hcell ▸ List.getElem_mem hk')

theorem mem_remapVals (gRow : List Cell) (oldSPB newSPB : Nat) (ps : List (Nat × Nat))
    (d : Nat) (a : Cell) (h : a ∈ remapVals gRow oldSPB newSPB ps d) :
    a ∈ gRow ∨ a = Cell.off := by
  simp only [remapVals, List.mem_filterMap] at h
  obtain ⟨p, _, hp⟩ := h
  by_cases hc : remapDest oldSPB newSPB p.1 p.2 = d
  · rw [if_pos hc, Option.some_inj] at hp
    rcases getD_mem_or_default gRow (p.1 * oldSPB + p.2) Cell.off with hin | hdef
    · exact Or.inl (hp ▸ hin)
    · exact Or.inr (hp ▸ hdef)
  · rw [if_neg hc] at hp
    exact Option.noConfusion hp

/-- The remap writes only values read from the same row (or leaves `off`). -/
theorem remap_no_new_ghost (g : Grid) (oldSPB newSPB bars : Nat) (i : InstId)
    (hg : Cell.ghost ∉ g i) : Cell.ghost ∉ (remapGrid g oldSPB newSPB bars) i := by
  intro hmem
  obtain ⟨k, hk, hval⟩ := List.mem_iff_getElem.mp hmem
  by_cases hnew : 1 ≤ newSPB
  · have hlen : ((remapGrid g oldSPB newSPB bars) i).length = bars * newSPB := by
      rw [remapGrid_eq_pairs,
        foldl_length_cell _ _ _ (fun out p => remapStep_length _ _ _ _ _ _)]
      exact List.length_replicate _ _
    have hcell : cellAt (remapGrid g oldSPB newSPB bars) i k = Cell.ghost := by
      rw [cellAt, List.getD_eq_getElem _ _ hk]
      exact hval
    rw [cellAt, remapGrid_eq_pairs,
      remap_fold_getD _ _ _ _ _ _ (fun p hp => by
        rw [List.length_replicate]
        exact remapDest_lt _ _ _ _ _ hnew (remapPairs_fst_lt _ _ _ hp)),
      getD_replicate_off, foldl_pick_prec] at hcell
    by_cases h1 : Cell.on ∈ remapVals (g i) oldSPB newSPB (remapPairs bars oldSPB) k ∨
        Cell.off = Cell.on
    · rw [if_pos h1] at hcell
      exact Cell.noConfusion hcell
    · rw [if_neg h1] at hcell
      by_cases h2 : Cell.ghost ∈ remapVals (g i) oldSPB newSPB (remapPairs bars oldSPB) k ∨
          Cell.off = Cell.ghost
      · rcases h2 with h2 | h2
        · rcases mem_remapVals _ _ _ _ _ _ h2 with hin | hdef
          · exact hg hin
          · exact Cell.noConfusion hdef
        · exact Cell.noConfusion h2
      · rw [if_neg h2] at hcell
        exact Cell.noConfusion hcell
  · have hnew0 : newSPB = 0 := by omega
    have hlen : ((remapGrid g oldSPB newSPB bars) i).length = bars * newSPB := by
      rw [remapGrid_eq_pairs,
        foldl_length_cell _ _ _ (fun out p => remapStep_length _ _ _ _ _ _)]
      exact List.length_replicate _ _
    rw [hlen, hnew0, Nat.mul_zero] at hk
    exact absurd hk (Nat.not_lt_zero k)

theorem cycleWrite_noGhost (g : Grid) (i : InstId) (idx : Nat) (h : noGhost g) :
    noGhost (cycleWrite g i idx) := by
  intro j hj hmem
  simp only [cycleWrite, updRow] at hmem
  by_cases hji : j = i
  · rw [if_pos hji] at hmem
    subst hji
    rcases List.mem_or_eq_of_mem_set hmem with hin | hval
    · exact h j hj hin
    · revert hval
      cases hcur : (g j).getD idx Cell.off <;> decide
  · rw [if_neg hji] at hmem
    exact h j hj hmem

theorem ghostWrite_other_rows (g : Grid) (i : InstId) (idx : Nat) (j : InstId)
    (hj : j ≠ i) : (ghostWrite g i idx) j = g j := by
  simp only [ghostWrite]
  split
  · rfl
  · simp [updRow, hj]

theorem ghostWrite_noGhost_of_enabled (g : Grid) (i : InstId) (idx : Nat)
    (hi : i ∈ GHOST_ENABLED) (h : noGhost g) : noGhost (ghostWrite g i idx) := by
  intro j hj
  rw [ghostWrite_other_rows g i idx j (fun hji => hj (hji ▸ hi))]
  exact h j hj

theorem toggleGhostOp_noGhost (g : Grid) (rule : Option LoopRule) (i : InstId)
    (idx c : Nat) (h : noGhost g) : noGhost (toggleGhostOp g rule i idx c) := by
  by_cases hi : i ∈ GHOST_ENABLED
  · cases rule with
    | none =>
      show noGhost (if i ∈ GHOST_ENABLED then ghostWrite g i idx else g)
      rw [if_pos hi]
      exact ghostWrite_noGhost_of_enabled g i idx hi h
    | some lr =>
      show noGhost (if i ∈ GHOST_ENABLED then
        (if tapBakes lr i idx then bakeLoopInto g lr c else ghostWrite g i idx) else g)
      rw [if_pos hi]
      by_cases hb : tapBakes lr i idx = true
      · rw [if_pos hb]
        intro j hj
        exact bake_no_new_ghost g lr c j (h j hj)
      · rw [if_neg hb]
        exact ghostWrite_noGhost_of_enabled g i idx hi h
  · show noGhost (toggleGhostOp g rule i idx c)
    unfold toggleGhostOp
    rw [if_neg hi]
    exact h

theorem cycleVelocityOp_noGhost (g : Grid) (rule : Option LoopRule) (i : InstId)
    (idx c : Nat) (h : noGhost g) : noGhost (cycleVelocityOp g rule i idx c) := by
  cases rule with
  | none => exact cycleWrite_noGhost g i idx h
  | some lr =>
    show noGhost (if tapBakes lr i idx then bakeLoopInto g lr c else cycleWrite g i idx)
    by_cases hb : tapBakes lr i idx = true
    · rw [if_pos hb]
      intro j hj
      exact bake_no_new_ghost g lr c j (h j hj)
    · rw [if_neg hb]
      exact cycleWrite_noGhost g i idx h

theorem applyOp_noGhost (g : Grid) (op : Op) (h : noGhost g) : noGhost (applyOp g op) := by
  cases op with
  | cycle rule i idx c => exact cycleVelocityOp_noGhost g rule i idx c h
  | ghostTap rule i idx c => exact toggleGhostOp_noGhost g rule i idx c h
  | remap o nw b =>
    intro j hj
    exact remap_no_new_ghost g o nw b j (h j hj)
  | bakeOp r c =>
    intro j hj
    exact bake_no_new_ghost g r c j (h j hj)

theorem initGrid_noGhost (columns : Nat) : noGhost (initGrid columns) := by
  intro i _ hmem
  have := List.eq_of_mem_replicate hmem
  exact Cell.noConfusion this

/-- Concrete state for the C7 counterexample: two snare hits in the loop
source `[0, 2)`, rule covering the snare row only. -/
def g7 : Grid := fun i =>
  if i = InstId.snare then [Cell.on, Cell.on, Cell.off, Cell.off]
  else List.replicate 4 Cell.off

/-- C7 counterexample: `toggleGhost` on a ghost-enabled instrument at a cell
that is currently `off` is NOT always a grid no-op — with an active loop
rule, a tap outside the loop source bakes the loop, changing the grid (cell
2 of the snare row flips from `off` to `on`). -/
theorem c7_counterexample_ghost_tap_bakes :
    InstId.snare ∈ GHOST_ENABLED ∧
    cellAt g7 InstId.snare 2 = Cell.off ∧
    cellAt (toggleGhostOp g7 (some ⟨8, 8, 0, 2⟩) InstId.snare 2 4) InstId.snare 2 =
      Cell.on := by
  decide

/-- C7 (amended): starting from the all-off grid, after any sequence of
toggle on/off, ghost taps, keep-timing remaps and bakes — each with
arbitrary loop-rule context — no cell of a non-ghost-enabled instrument is
ever `ghost`; `toggleGhost` is an unconditional no-op for instruments
outside the ghost-enabled set; and it is a no-op for a currently-`off` cell
whenever no loop rule is active (with an active rule, a tap outside the
loop source bakes the loop instead — see the counterexample). -/
theorem c7_ghost_invariant (columns : Nat) (ops : List Op) :
    noGhost (ops.foldl applyOp (initGrid columns)) ∧
    (∀ (g : Grid) (rule : Option LoopRule) (i : InstId) (idx c : Nat),
      i ∉ GHOST_ENABLED → toggleGhostOp g rule i idx c = g) ∧
    (∀ (g : Grid) (i : InstId) (idx c : Nat),
      cellAt g i idx = Cell.off → toggleGhostOp g none i idx c = g) := by
  refine ⟨?_, ?_, ?_⟩
  · have : ∀ (g : Grid), noGhost g → noGhost (ops.foldl applyOp g) := by
      induction ops with
      | nil => exact fun g h => h
      | cons op ops ih => exact fun g h => ih _ (applyOp_noGhost g op h)
    exact this _ (initGrid_noGhost columns)
  · intro g rule i idx c hi
    unfold toggleGhostOp
    rw [if_neg hi]
  · intro g i idx c hoff
    rw [cellAt] at hoff
    by_cases hi : i ∈ GHOST_ENABLED
    · show (if i ∈ GHOST_ENABLED then ghostWrite g i idx else g) = g
      rw [if_pos hi]
      unfold ghostWrite
      rw [if_pos hoff]
    · show (if i ∈ GHOST_ENABLED then ghostWrite g i idx else g) = g
      rw [if_neg hi]

theorem c7_ghost_invariant_witness :
    noGhost ([Op.cycle none InstId.kick 0 8,
      Op.ghostTap none InstId.snare 0 8].foldl applyOp (initGrid 8)) ∧
    toggleGhostOp gB (some ⟨8, 8, 0, 3⟩) InstId.kick 1 8 = gB := by
  refine ⟨(c7_ghost_invariant 8 _).1, ?_⟩
  exact (c7_ghost_invariant 8 []).2.1 gB (some ⟨8, 8, 0, 3⟩) InstId.kick 1 8 (by decide)

/-! Beam-window arithmetic.  `groupSize` is modelled over `ℚ`; the floors
reduce to natural division, which the lemmas below make available to the
transcription proofs. -/

theorem floor_ratio (a S G : Nat) :
    ⌊(a : ℚ) / ((S : ℚ) / (G : ℚ))⌋ = ((a * G) / S : Nat) := by
  rcases Nat.eq_zero_or_pos S with hS | hS
  · subst hS
    simp
  rcases Nat.eq_zero_or_pos G with hG | hG
  · subst hG
    simp
  have h1 : (a : ℚ) / ((S : ℚ) / (G : ℚ)) = ((a * G : ℕ) : ℚ) / ((S : ℕ) : ℚ) := by
    rw [div_div_eq_mul_div]
    push_cast
    ring
  rw [h1, show ((a * G : ℕ) : ℚ) = (((a * G : ℕ) : ℤ) : ℚ) by push_cast; ring,
    Rat.floor_intCast_div_natCast]
  exact (Int.ofNat_div _ _).symm

theorem sameWin_eq (P : TP) (a e : Nat) :
    sameWin P a e = decide ((a * beamGroupsOf P) / stepsPerBarOf P =
      ((e - 1) * beamGroupsOf P) / stepsPerBarOf P) := by
  unfold sameWin groupSize
  rw [floor_ratio, floor_ratio, decide_eq_decide]
  exact Int.natCast_inj

theorem sameWin_self (P : TP) (a : Nat) : sameWin P a (a + 1) = true := by
  rw [sameWin_eq]
  simp

theorem sameWin_groups_zero (P : TP) (h : beamGroupsOf P = 0) (a e : Nat) :
    sameWin P a e = true := by
  rw [sameWin_eq, h]
  simp

theorem sameWin_div_goal (P : TP) (a e k : Nat)
    (hSPB : stepsPerBarOf P = beamGroupsOf P * k)
    (hdiv : a / k = (e - 1) / k) : sameWin P a e = true := by
  rcases Nat.eq_zero_or_pos (beamGroupsOf P) with hG | hG
  · exact sameWin_groups_zero P hG a e
  · rw [sameWin_eq, decide_eq_true_eq, hSPB, Nat.mul_comm a, Nat.mul_comm (e - 1),
      Nat.mul_div_mul_left _ _ hG, Nat.mul_div_mul_left _ _ hG]
    exact hdiv

/-! Resolution/denominator bookkeeping for the merge branches. -/

theorem d4_of_res8_spbN2 (P : TP) (hd : P.d = 4 ∨ P.d = 8) (hres : P.res = 8)
    (h : spbNOf P = 2) : P.d = 4 := by
  rcases hd with h4 | h8
  · exact h4
  · exfalso
    unfold spbNOf jround at h
    rw [hres, h8] at h
    omega

theorem d4_of_res16_spbN4 (P : TP) (hd : P.d = 4 ∨ P.d = 8) (hres : P.res = 16)
    (h : spbNOf P = 4) : P.d = 4 := by
  rcases hd with h4 | h8
  · exact h4
  · exfalso
    unfold spbNOf jround at h
    rw [hres, h8] at h
    omega

theorem d8_of_res16_spbN2 (P : TP) (hd : P.d = 4 ∨ P.d = 8) (hres : P.res = 16)
    (h : spbNOf P = 2) : P.d = 8 := by
  rcases hd with h4 | h8
  · exfalso
    unfold spbNOf jround at h
    rw [hres, h4] at h
    omega
  · exact h8

theorem d4_of_res32_spbN8 (P : TP) (hd : P.d = 4 ∨ P.d = 8) (hres : P.res = 32)
    (h : spbNOf P = 8) : P.d = 4 := by
  rcases hd with h4 | h8
  · exact h4
  · exfalso
    unfold spbNOf jround at h
    rw [hres, h8] at h
    omega

theorem d8_of_res32_spbN4 (P : TP) (hd : P.d = 4 ∨ P.d = 8) (hres : P.res = 32)
    (h : spbNOf P = 4) : P.d = 8 := by
  rcases hd with h4 | h8
  · exfalso
    unfold spbNOf jround at h
    rw [hres, h4] at h
    omega
  · exact h8

theorem SPB_res8_d4 (P : TP) (hres : P.res = 8) (hd : P.d = 4) (hn : 1 ≤ P.n) :
    stepsPerBarOf P = P.n * 2 := by
  unfold stepsPerBarOf jround
  rw [hres, hd]
  omega

theorem SPB_res16_d4 (P : TP) (hres : P.res = 16) (hd : P.d = 4) (hn : 1 ≤ P.n) :
    stepsPerBarOf P = P.n * 4 := by
  unfold stepsPerBarOf jround
  rw [hres, hd]
  omega

theorem SPB_res32_d4 (P : TP) (hres : P.res = 32) (hd : P.d = 4) (hn : 1 ≤ P.n) :
    stepsPerBarOf P = P.n * 8 := by
  unfold stepsPerBarOf jround
  rw [hres, hd]
  omega

theorem SPB_res16_d8 (P : TP) (hres : P.res = 16) (hd : P.d = 8) (hn : 1 ≤ P.n) :
    stepsPerBarOf P = P.n * 2 := by
  unfold stepsPerBarOf jround
  rw [hres, hd]
  omega

theorem SPB_res32_d8 (P : TP) (hres : P.res = 32) (hd : P.d = 8) (hn : 1 ≤ P.n) :
    stepsPerBarOf P = P.n * 4 := by
  unfold stepsPerBarOf jround
  rw [hres, hd]
  omega

theorem G_d4 (P : TP) (hd : P.d = 4) : beamGroupsOf P = P.n := by
  unfold beamGroupsOf
  rw [if_neg (by simp [hd])]

theorem G_d8_comp (P : TP) (hd : P.d = 8) (h3 : P.n % 3 = 0) (hgt : 3 < P.n) :
    beamGroupsOf P = P.n / 3 := by
  unfold beamGroupsOf
  rw [if_pos ⟨hd, h3, hgt⟩]

theorem G_d8_simple (P : TP) (hd : P.d = 8) (h : ¬(P.n % 3 = 0 ∧ 3 < P.n)) :
    beamGroupsOf P = P.n := by
  unfold beamGroupsOf
  rw [if_neg (fun hc => h ⟨hc.2.1, hc.2.2⟩)]

theorem canLen32_elim {P : TP} {g : Grid} {b s len : Nat}
    (h : canLen32 P g b s len = true) :
    s % len = 0 ∧ s + (len - 1) < stepsPerBarOf P ∧ sameWin P s (s + len) = true := by
  unfold canLen32 at h
  simp only [Bool.and_eq_true, decide_eq_true_eq] at h
  exact ⟨h.1.1.1, h.1.1.2, h.1.2⟩

theorem len32_pos (P : TP) (g : Grid) (b s : Nat) : 1 ≤ len32 P g b s := by
  unfold len32
  split_ifs <;> omega

theorem len32_spec (P : TP) (g : Grid) (b s : Nat) :
    len32 P g b s = 1 ∨
      (canLen32 P g b s (len32 P g b s) = true ∧ 2 ≤ len32 P g b s) := by
  unfold len32
  split_ifs with h8 h4 h2
  · exact Or.inr ⟨h8, by omega⟩
  · exact Or.inr ⟨h4, by omega⟩
  · exact Or.inr ⟨h2, by omega⟩
  · exact Or.inl rfl

theorem dotted32_elim {P : TP} {g : Grid} {b s : Nat} (h : dotted32 P g b s = true) :
    2 ≤ len32 P g b s ∧
    s + (len32 P g b s + len32 P g b s / 2 - 1) < stepsPerBarOf P ∧
    sameWin P s (s + len32 P g b s + len32 P g b s / 2) = true := by
  unfold dotted32 at h
  simp only [Bool.and_eq_true, decide_eq_true_eq] at h
  exact ⟨h.1.1.1.2, h.1.1.2, h.1.2⟩

theorem sym32_start (P : TP) (g : Grid) (b s : Nat) : (sym32 P g b s).start = s := rfl

theorem sym32_adv_pos (P : TP) (g : Grid) (b s : Nat) : 1 ≤ (sym32 P g b s).adv := by
  unfold sym32
  have := len32_pos P g b s
  split_ifs <;> simp only [] <;> omega

theorem sym32_adv_le (P : TP) (g : Grid) (b s : Nat) (hs : s < stepsPerBarOf P) :
    s + (sym32 P g b s).adv ≤ stepsPerBarOf P := by
  unfold sym32
  by_cases hdot : dotted32 P g b s = true
  · rw [if_pos hdot]
    have h := dotted32_elim hdot
    simp only []
    omega
  · rw [if_neg hdot]
    simp only []
    rcases len32_spec P g b s with h1 | ⟨hc, h2⟩
    · omega
    · have h := canLen32_elim hc
      omega

theorem sym32_sameWin (P : TP) (g : Grid) (b s : Nat) :
    sameWin P s (s + (sym32 P g b s).adv) = true := by
  unfold sym32
  by_cases hdot : dotted32 P g b s = true
  · rw [if_pos hdot]
    simp only []
    rw [← Nat.add_assoc]
    exact (dotted32_elim hdot).2.2
  · rw [if_neg hdot]
    simp only []
    rcases len32_spec P g b s with h1 | ⟨hc, h2⟩
    · rw [h1]
      exact sameWin_self P s
    · exact (canLen32_elim hc).2.2

theorem noteSym_props (P : TP) (g : Grid) (b s : Nat) (y : NSym)
    (hs : s < stepsPerBarOf P) (hy : noteSym P g b s = some y) :
    y.start = s ∧ 1 ≤ y.adv ∧ s + y.adv ≤ stepsPerBarOf P := by
  unfold noteSym at hy
  simp only [] at hy
  split_ifs at hy with h1 h2 h3 h4 h5 h6 h7 h8
  · rw [Option.some_inj] at hy
    subst hy
    exact ⟨rfl, show 1 ≤ 3 by omega, show s + 3 ≤ stepsPerBarOf P by omega⟩
  · rw [Option.some_inj] at hy
    subst hy
    exact ⟨rfl, show 1 ≤ 2 by omega, show s + 2 ≤ stepsPerBarOf P by omega⟩
  · rw [Option.some_inj] at hy
    subst hy
    exact ⟨rfl, show 1 ≤ 4 by omega, show s + 4 ≤ stepsPerBarOf P by omega⟩
  · rw [Option.some_inj] at hy
    subst hy
    exact ⟨rfl, show 1 ≤ 3 by omega, show s + 3 ≤ stepsPerBarOf P by omega⟩
  · rw [Option.some_inj] at hy
    subst hy
    exact ⟨rfl, show 1 ≤ 2 by omega, show s + 2 ≤ stepsPerBarOf P by omega⟩
  · rw [Option.some_inj] at hy
    subst hy
    exact ⟨sym32_start P g b s, sym32_adv_pos P g b s, sym32_adv_le P g b s hs⟩
  · rw [Option.some_inj] at hy
    subst hy
    exact ⟨rfl, show 1 ≤ 3 by omega, show s + 3 ≤ stepsPerBarOf P by omega⟩
  · rw [Option.some_inj] at hy
    subst hy
    exact ⟨rfl, show 1 ≤ 2 by omega, show s + 2 ≤ stepsPerBarOf P by omega⟩

theorem restSym_props (P : TP) (g : Grid) (b s : Nat) (y : NSym)
    (hs : s < stepsPerBarOf P) (hy : restSym P g b s = some y) :
    y.start = s ∧ 1 ≤ y.adv ∧ s + y.adv ≤ stepsPerBarOf P := by
  unfold restSym at hy
  simp only [] at hy
  split_ifs at hy with h1 h2 h3 h4 h5 h6 h7 h8 h9
  · rw [Option.some_inj] at hy
    subst hy
    exact ⟨rfl, show 1 ≤ 2 by omega, show s + 2 ≤ stepsPerBarOf P by omega⟩
  · rw [Option.some_inj] at hy
    subst hy
    exact ⟨rfl, show 1 ≤ 4 by omega, show s + 4 ≤ stepsPerBarOf P by omega⟩
  · rw [Option.some_inj] at hy
    subst hy
    exact ⟨rfl, show 1 ≤ 2 by omega, show s + 2 ≤ stepsPerBarOf P by omega⟩
  · rw [Option.some_inj] at hy
    subst hy
    exact ⟨rfl, show 1 ≤ 8 by omega, show s + 8 ≤ stepsPerBarOf P by omega⟩
  · rw [Option.some_inj] at hy
    subst hy
    exact ⟨rfl, show 1 ≤ 4 by omega, show s + 4 ≤ stepsPerBarOf P by omega⟩
  · rw [Option.some_inj] at hy
    subst hy
    exact ⟨rfl, show 1 ≤ 2 by omega, show s + 2 ≤ stepsPerBarOf P by omega⟩
  · rw [Option.some_inj] at hy
    subst hy
    exact ⟨rfl, show 1 ≤ 4 by omega, show s + 4 ≤ stepsPerBarOf P by omega⟩
  · rw [Option.some_inj] at hy
    subst hy
    exact ⟨rfl, show 1 ≤ 2 by omega, show s + 2 ≤ stepsPerBarOf P by omega⟩
  · rw [Option.some_inj] at hy
    subst hy
    exact ⟨rfl, show 1 ≤ 2 by omega, show s + 2 ≤ stepsPerBarOf P by omega⟩

theorem mergedSym_some (P : TP) (g : Grid) (b s : Nat) (y : NSym)
    (h : mergedSym P g b s = some y) :
    noteSym P g b s = some y ∨ restSym P g b s = some y := by
  unfold mergedSym at h
  simp only [] at h
  split_ifs at h
  · exact Or.inl h
  · exact Or.inr h

theorem emit_start_adv (P : TP) (g : Grid) (b s : Nat) (hs : s < stepsPerBarOf P) :
    (emit P g b s).start = s ∧ 1 ≤ (emit P g b s).adv ∧
      s + (emit P g b s).adv ≤ stepsPerBarOf P := by
  unfold emit
  cases hm : mergedSym P g b s with
  | none =>
    rw [Option.getD_none]
    exact ⟨rfl, show 1 ≤ 1 by omega, show s + 1 ≤ stepsPerBarOf P by omega⟩
  | some y =>
    rw [Option.getD_some]
    rcases mergedSym_some P g b s y hm with hn | hr
    · exact noteSym_props P g b s y hs hn
    · exact restSym_props P g b s y hs hr

theorem scanGo_fuel (P : TP) (g : Grid) (b : Nat) (f1 f2 s : Nat)
    (h1 : stepsPerBarOf P ≤ s + f1) (h2 : stepsPerBarOf P ≤ s + f2) :
    scanGo P g b f1 s = scanGo P g b f2 s := by
  induction f1 generalizing f2 s with
  | zero =>
    cases f2 with
    | zero => rfl
    | succ f2 =>
      show ([] : List NSym) = if s < stepsPerBarOf P then _ else []
      rw [if_neg (by omega)]
  | succ f1 ih =>
    cases f2 with
    | zero =>
      show (if s < stepsPerBarOf P then _ else []) = ([] : List NSym)
      rw [if_neg (by omega)]
    | succ f2 =>
      simp only [scanGo]
      by_cases h : s < stepsPerBarOf P
      · rw [if_pos h, if_pos h]
        have hadv := (emit_start_adv P g b s h).2.1
        rw [ih f2 (s + (emit P g b s).adv) (by omega) (by omega)]
      · rw [if_neg h, if_neg h]

theorem scanGo_sum (P : TP) (g : Grid) (b : Nat) (fuel : Nat) :
    ∀ s, s ≤ stepsPerBarOf P → stepsPerBarOf P ≤ s + fuel →
      s + ((scanGo P g b fuel s).map NSym.adv).sum = stepsPerBarOf P := by
  induction fuel with
  | zero =>
    intro s h1 h2
    show s + (([] : List NSym).map NSym.adv).sum = stepsPerBarOf P
    simp
    omega
  | succ fuel ih =>
    intro s h1 h2
    simp only [scanGo]
    by_cases h : s < stepsPerBarOf P
    · rw [if_pos h]
      have hprops := emit_start_adv P g b s h
      have := ih (s + (emit P g b s).adv) hprops.2.2 (by omega)
      simp only [List.map_cons, List.sum_cons]
      omega
    · rw [if_neg h]
      simp
      omega

theorem scanGo_mem (P : TP) (g : Grid) (b : Nat) (fuel : Nat) :
    ∀ s y, y ∈ scanGo P g b fuel s →
      s ≤ y.start ∧ y.start < stepsPerBarOf P ∧ y = emit P g b y.start := by
  induction fuel with
  | zero =>
    intro s y hy
    exact absurd hy (List.not_mem_nil y)
  | succ fuel ih =>
    intro s y hy
    simp only [scanGo] at hy
    by_cases h : s < stepsPerBarOf P
    · rw [if_pos h] at hy
      rcases List.mem_cons.mp hy with hy | hy
      · have hstart : y.start = s := by
          rw [hy]
          exact (emit_start_adv P g b s h).1
        exact ⟨le_of_eq hstart.symm, hstart ▸ h, by rw [hstart]; exact hy⟩
      · have := ih _ y hy
        exact ⟨le_trans (by omega) this.1, this.2.1, this.2.2⟩
    · rw [if_neg h] at hy
      exact absurd hy (List.not_mem_nil y)

/-- C10: the per-bar scan terminates — fuel `stepsPerBar` suffices and any
additional fuel gives the same symbol sequence; every emitted symbol
consumes at least one step and never reaches past the end of the bar; and
the steps consumed sum to exactly `stepsPerBar`. -/
theorem c10_scan_terminates (P : TP) (g : Grid) (b : Nat) :
    (∀ m, scanGo P g b (stepsPerBarOf P + m) 0 = scanBar P g b) ∧
    ((scanBar P g b).map NSym.adv).sum = stepsPerBarOf P ∧
    (∀ y ∈ scanBar P g b, 1 ≤ y.adv ∧ y.start + y.adv ≤ stepsPerBarOf P) := by
  refine ⟨?_, ?_, ?_⟩
  · intro m
    exact scanGo_fuel P g b _ _ 0 (by omega) (by omega)
  · have := scanGo_sum P g b (stepsPerBarOf P) 0 (by omega) (by omega)
    simpa using this
  · intro y hy
    obtain ⟨-, hlt, heq⟩ := scanGo_mem P g b _ _ y hy
    have props := emit_start_adv P g b y.start hlt
    have hadv : y.adv = (emit P g b y.start).adv := congrArg NSym.adv heq
    exact ⟨by rw [hadv]; exact props.2.1, by rw [hadv]; exact props.2.2⟩

theorem noteSym_sameWin (P : TP) (g : Grid) (b s : Nat) (y : NSym)
    (hd : P.d = 4 ∨ P.d = 8) (hy : noteSym P g b s = some y) :
    sameWin P y.start (y.start + y.adv) = true := by
  unfold noteSym at hy
  simp only [] at hy
  split_ifs at hy with h1 h2 h3 h4 h5 h6 h7 h8
  · rw [Option.some_inj] at hy
    subst hy
    exact h2.2.2.2
  · rw [Option.some_inj] at hy
    subst hy
    obtain ⟨hres, hspbN, hsub, -, -⟩ := h1
    have hd4 := d4_of_res8_spbN2 P hd hres hspbN
    rw [hspbN] at hsub
    rcases Nat.eq_zero_or_pos P.n with hn | hn
    · exact sameWin_groups_zero P (by rw [G_d4 P hd4]; exact hn) _ _
    · exact sameWin_div_goal P s (s + 2) 2
        (by rw [G_d4 P hd4]; exact SPB_res8_d4 P hres hd4 hn) (by omega)
  · rw [Option.some_inj] at hy
    subst hy
    obtain ⟨hres, hspbN, hsub, -, -, -, -⟩ := h3
    have hd4 := d4_of_res16_spbN4 P hd hres hspbN
    rw [hspbN] at hsub
    rcases Nat.eq_zero_or_pos P.n with hn | hn
    · exact sameWin_groups_zero P (by rw [G_d4 P hd4]; exact hn) _ _
    · exact sameWin_div_goal P s (s + 4) 4
        (by rw [G_d4 P hd4]; exact SPB_res16_d4 P hres hd4 hn) (by omega)
  · rw [Option.some_inj] at hy
    subst hy
    exact h5.2.2.2
  · rw [Option.some_inj] at hy
    subst hy
    obtain ⟨hres, hspbN, hsub, -, -⟩ := h4
    have hd4 := d4_of_res16_spbN4 P hd hres hspbN
    rw [hspbN] at hsub
    rcases Nat.eq_zero_or_pos P.n with hn | hn
    · exact sameWin_groups_zero P (by rw [G_d4 P hd4]; exact hn) _ _
    · refine sameWin_div_goal P s (s + 2) 4
        (by rw [G_d4 P hd4]; exact SPB_res16_d4 P hres hd4 hn) ?_
      rcases hsub with hsub | hsub <;> omega
  · rw [Option.some_inj] at hy
    subst hy
    rw [sym32_start]
    exact sym32_sameWin P g b s
  · rw [Option.some_inj] at hy
    subst hy
    exact h8.2.2.2
  · rw [Option.some_inj] at hy
    subst hy
    obtain ⟨hres, hspbN, hsub, -, -⟩ := h7
    have hd8 := d8_of_res16_spbN2 P hd hres hspbN
    rw [hspbN] at hsub
    by_cases hc : P.n % 3 = 0 ∧ 3 < P.n
    · refine sameWin_div_goal P s (s + 2) 6 ?_ (by omega)
      rw [G_d8_comp P hd8 hc.1 hc.2]
      have := SPB_res16_d8 P hres hd8 (by omega)
      omega
    · rcases Nat.eq_zero_or_pos P.n with hn | hn
      · exact sameWin_groups_zero P (by rw [G_d8_simple P hd8 hc]; exact hn) _ _
      · exact sameWin_div_goal P s (s + 2) 2
          (by rw [G_d8_simple P hd8 hc]; exact SPB_res16_d8 P hres hd8 hn) (by omega)

theorem restSym_sameWin (P : TP) (g : Grid) (b s : Nat) (y : NSym)
    (hd : P.d = 4 ∨ P.d = 8) (hy : restSym P g b s = some y) :
    sameWin P y.start (y.start + y.adv) = true := by
  unfold restSym at hy
  simp only [] at hy
  split_ifs at hy with h1 h2 h3 h4 h5 h6 h7 h8 h9
  · rw [Option.some_inj] at hy
    subst hy
    obtain ⟨hres, hspbN, hsub, -, -⟩ := h1
    have hd4 := d4_of_res8_spbN2 P hd hres hspbN
    rw [hspbN] at hsub
    rcases Nat.eq_zero_or_pos P.n with hn | hn
    · exact sameWin_groups_zero P (by rw [G_d4 P hd4]; exact hn) _ _
    · exact sameWin_div_goal P s (s + 2) 2
        (by rw [G_d4 P hd4]; exact SPB_res8_d4 P hres hd4 hn) (by omega)
  · rw [Option.some_inj] at hy
    subst hy
    obtain ⟨hres, hspbN, hsub, -, -, -, -⟩ := h2
    have hd4 := d4_of_res16_spbN4 P hd hres hspbN
    rw [hspbN] at hsub
    rcases Nat.eq_zero_or_pos P.n with hn | hn
    · exact sameWin_groups_zero P (by rw [G_d4 P hd4]; exact hn) _ _
    · exact sameWin_div_goal P s (s + 4) 4
        (by rw [G_d4 P hd4]; exact SPB_res16_d4 P hres hd4 hn) (by omega)
  · rw [Option.some_inj] at hy
    subst hy
    obtain ⟨hres, hspbN, hsub, -, -⟩ := h3
    have hd4 := d4_of_res16_spbN4 P hd hres hspbN
    rw [hspbN] at hsub
    rcases Nat.eq_zero_or_pos P.n with hn | hn
    · exact sameWin_groups_zero P (by rw [G_d4 P hd4]; exact hn) _ _
    · refine sameWin_div_goal P s (s + 2) 4
        (by rw [G_d4 P hd4]; exact SPB_res16_d4 P hres hd4 hn) ?_
      rcases hsub with hsub | hsub <;> omega
  · rw [Option.some_inj] at hy
    subst hy
    obtain ⟨hres, hspbN, hsub, -, -⟩ := h4
    have hd4 := d4_of_res32_spbN8 P hd hres hspbN
    rw [hspbN] at hsub
    rcases Nat.eq_zero_or_pos P.n with hn | hn
    · exact sameWin_groups_zero P (by rw [G_d4 P hd4]; exact hn) _ _
    · exact sameWin_div_goal P s (s + 8) 8
        (by rw [G_d4 P hd4]; exact SPB_res32_d4 P hres hd4 hn) (by omega)
  · rw [Option.some_inj] at hy
    subst hy
    obtain ⟨hres, hspbN, hsub, -, -, -, -⟩ := h5
    have hd4 := d4_of_res32_spbN8 P hd hres hspbN
    rw [hspbN] at hsub
    rcases Nat.eq_zero_or_pos P.n with hn | hn
    · exact sameWin_groups_zero P (by rw [G_d4 P hd4]; exact hn) _ _
    · refine sameWin_div_goal P s (s + 4) 8
        (by rw [G_d4 P hd4]; exact SPB_res32_d4 P hres hd4 hn) ?_
      rcases hsub with hsub | hsub <;> omega
  · rw [Option.some_inj] at hy
    subst hy
    obtain ⟨hres, hspbN, hsub, -, -⟩ := h6
    have hd4 := d4_of_res32_spbN8 P hd hres hspbN
    rw [hspbN] at hsub
    rcases Nat.eq_zero_or_pos P.n with hn | hn
    · exact sameWin_groups_zero P (by rw [G_d4 P hd4]; exact hn) _ _
    · refine sameWin_div_goal P s (s + 2) 8
        (by rw [G_d4 P hd4]; exact SPB_res32_d4 P hres hd4 hn) ?_
      rcases hsub with hsub | hsub | hsub | hsub <;> omega
  · rw [Option.some_inj] at hy
    subst hy
    obtain ⟨hres, hspbN, hsub, -, -, -, -⟩ := h7
    have hd8 := d8_of_res32_spbN4 P hd hres hspbN
    rw [hspbN] at hsub
    by_cases hc : P.n % 3 = 0 ∧ 3 < P.n
    · refine sameWin_div_goal P s (s + 4) 12 ?_ (by omega)
      rw [G_d8_comp P hd8 hc.1 hc.2]
      have := SPB_res32_d8 P hres hd8 (by omega)
      omega
    · rcases Nat.eq_zero_or_pos P.n with hn | hn
      · exact sameWin_groups_zero P (by rw [G_d8_simple P hd8 hc]; exact hn) _ _
      · exact sameWin_div_goal P s (s + 4) 4
          (by rw [G_d8_simple P hd8 hc]; exact SPB_res32_d8 P hres hd8 hn) (by omega)
  · rw [Option.some_inj] at hy
    subst hy
    obtain ⟨hres, hspbN, hsub, -, -⟩ := h8
    have hd8 := d8_of_res32_spbN4 P hd hres hspbN
    rw [hspbN] at hsub
    by_cases hc : P.n % 3 = 0 ∧ 3 < P.n
    · refine sameWin_div_goal P s (s + 2) 12 ?_ ?_
      · rw [G_d8_comp P hd8 hc.1 hc.2]
        have := SPB_res32_d8 P hres hd8 (by omega)
        omega
      · rcases hsub with hsub | hsub <;> omega
    · rcases Nat.eq_zero_or_pos P.n with hn | hn
      · exact sameWin_groups_zero P (by rw [G_d8_simple P hd8 hc]; exact hn) _ _
      · refine sameWin_div_goal P s (s + 2) 4
          (by rw [G_d8_simple P hd8 hc]; exact SPB_res32_d8 P hres hd8 hn) ?_
        rcases hsub with hsub | hsub <;> omega
  · rw [Option.some_inj] at hy
    subst hy
    obtain ⟨hres, hspbN, hsub, -, -⟩ := h9
    have hd8 := d8_of_res16_spbN2 P hd hres hspbN
    rw [hspbN] at hsub
    by_cases hc : P.n % 3 = 0 ∧ 3 < P.n
    · refine sameWin_div_goal P s (s + 2) 6 ?_ (by omega)
      rw [G_d8_comp P hd8 hc.1 hc.2]
      have := SPB_res16_d8 P hres hd8 (by omega)
      omega
    · rcases Nat.eq_zero_or_pos P.n with hn | hn
      · exact sameWin_groups_zero P (by rw [G_d8_simple P hd8 hc]; exact hn) _ _
      · exact sameWin_div_goal P s (s + 2) 2
          (by rw [G_d8_simple P hd8 hc]; exact SPB_res16_d8 P hres hd8 hn) (by omega)

theorem emit_sameWin (P : TP) (g : Grid) (b s : Nat) (hd : P.d = 4 ∨ P.d = 8) :
    sameWin P (emit P g b s).start ((emit P g b s).start + (emit P g b s).adv) = true := by
  unfold emit
  cases hm : mergedSym P g b s with
  | none =>
    rw [Option.getD_none]
    exact sameWin_self P s
  | some y =>
    rw [Option.getD_some]
    rcases mergedSym_some P g b s y hm with hn | hr
    · exact noteSym_sameWin P g b s y hd hn
    · exact restSym_sameWin P g b s y hd hr

/-- Transcription parameters of the spec's merge-correctness scenario:
16th resolution, 4/4, all merge toggles on. -/
def Pc : TP := ⟨16, 4, 4, true, true, true⟩

/-- A 16-step 4/4 bar with snare hits at sixteenth-steps 0 and 8 only. -/
def gc : Grid := fun i =>
  if i = InstId.snare then
    [Cell.on, Cell.off, Cell.off, Cell.off, Cell.off, Cell.off, Cell.off, Cell.off,
     Cell.on, Cell.off, Cell.off, Cell.off, Cell.off, Cell.off, Cell.off, Cell.off]
  else List.replicate 16 Cell.off

/-- C3 counterexample: the bar with hits only at sixteenth-steps 0 and 8
does NOT transcribe to exactly two symbols — the engine emits four (two
quarter notes and two quarter rests), since its duration ladder is capped
at a quarter and the silent beats 2 and 4 must be covered by rests. -/
theorem c3_counterexample_two_symbols :
    ¬(scanBar Pc gc 0).length = 2 := by decide

/-- C3 (amended): with `mergeNotes` and `mergeRests` on, the bar with hits
only at sixteenth-steps 0 and 8 transcribes to exactly four symbols: a
quarter note on beat 1, a quarter rest on beat 2, a quarter note on beat 3
and a quarter rest on beat 4 — no ties, no dots, and no symbol smaller than
a quarter. -/
theorem c3_two_quarters_and_two_quarter_rests :
    scanBar Pc gc 0 =
      [⟨0, 4, false, false, DC.q⟩, ⟨4, 4, true, false, DC.q⟩,
       ⟨8, 4, false, false, DC.q⟩, ⟨12, 4, true, false, DC.q⟩] := by decide

/-- Transcription parameters exhibiting the C4 violation: resolution 8 with
time-signature denominator 5 (numerator 4), note merging on. -/
def P5 : TP := ⟨8, 4, 5, true, false, false⟩

/-- A 6-step bar (4/5 at resolution 8) with a single snare hit at step 2. -/
def g5 : Grid := fun i =>
  if i = InstId.snare then
    [Cell.off, Cell.off, Cell.on, Cell.off, Cell.off, Cell.off]
  else List.replicate 6 Cell.off

/-- C4 counterexample: at time signature 4/5 and resolution 8, the engine
merges the hit at step 2 into a quarter note spanning steps `[2, 4)`, but
that span crosses a beam-group window boundary (windows have size
`6 / 4 = 3/2`, with a boundary at step 3): the merge branch for eighth
grids never consults `inSameBeamGroup`, so the claimed hard constraint
fails for such a time signature. -/
theorem c4_counterexample_merge_crosses_group :
    scanBar P5 g5 0 =
      [⟨0, 1, true, false, DC.e8⟩, ⟨1, 1, true, false, DC.e8⟩,
       ⟨2, 2, false, false, DC.q⟩, ⟨4, 1, true, false, DC.e8⟩,
       ⟨5, 1, true, false, DC.e8⟩] ∧
    sameWin P5 2 (2 + 2) = false := by
  constructor
  · decide
  · rw [sameWin_eq]
    decide

/-- C4 (amended): for every grid, every bar, every resolution, every flag
combination, and every time signature whose denominator is 4 or 8 (the
denominators the application offers), every symbol the transcription engine
emits covers a step range `[start, start + adv)` lying entirely within one
beam-group window of size `stepsPerBar / beamGroupsPerBar`; no merge and no
dotted extension crosses a beam-group boundary.  (For other denominators
the constraint can fail — see the counterexample.) -/
theorem c4_merges_within_beam_group (P : TP) (g : Grid) (b : Nat)
    (hd : P.d = 4 ∨ P.d = 8) :
    ∀ y ∈ scanBar P g b, sameWin P y.start (y.start + y.adv) = true := by
  intro y hy
  obtain ⟨-, hlt, heq⟩ := scanGo_mem P g b _ _ y hy
  have hW := emit_sameWin P g b y.start hd
  have hstart : (emit P g b y.start).start = y.start := (emit_start_adv P g b y.start hlt).1
  have hadv : y.adv = (emit P g b y.start).adv := congrArg NSym.adv heq
  rw [hstart] at hW
  rw [hadv]
  exact hW

theorem c4_merges_within_beam_group_witness :
    sameWin Pc 0 (0 + 4) = true :=
  c4_merges_within_beam_group Pc gc 0 (Or.inl rfl)
    ⟨0, 4, false, false, DC.q⟩ (by decide)
